import Mathlib

/-!
Verification development for the DNSSEC core `dnssecfn.py` (module with
DNS(SEC) functions: signature verification and DS computing).

The record types (`oidnstypes.OI_DNSKEY_rec`, `oidnstypes.OI_RRSIG_rec`,
generic resource records) are external collaborators of this core: they are
modelled as plain structures whose fields are the typed accessors the core
reads (`fqdn`, `rectype`, `towire()`, `keytag()`, `verification_data()`,
timestamps, raw key material).  The cryptographic libraries (PyCrypto RSA +
PKCS#1 v1.5, python-ecdsa, PyNaCl Ed25519, the RFC 8032 Ed448 code) are
modelled as an abstract oracle (`CryptoBackend`): each per-algorithm branch
of `verify_sig` performs exactly one oracle call carrying the arguments the
source hands to the library, and an `Except.error` result models a library
exception raised anywhere inside that branch's `try` block.

Bytes are modelled as `List Nat` with values < 256; Python text strings as
Lean `String` / `List Char`.  Integer timestamps are `Int`.  The logger is
an abstract write-only collaborator: a state type `L` together with a
`log_warn : L → String → L` update function, threaded through the call.
A Python exception escaping `verify_sig` is modelled as `Except.error`.
-/

deriving instance DecidableEq for Except

/-- Configuration constant, line 29 of dnssecfn.py: time to add to the
expiration time of signatures when validating. -/
def signature_grace_time : Int := 7200

/-- Models `s.replace('\\.', '\\\\')` from line 37 of dnssecfn.py: each
two-character occurrence of backslash-dot is replaced, left to right and
without overlap, by backslash-backslash. -/
def replEscDot : List Char → List Char
  | [] => []
  | [c] => [c]
  | c :: d :: r =>
    if c = '\\' ∧ d = '.' then '\\' :: '\\' :: replEscDot r
    else c :: replEscDot (d :: r)

/-- Models `label.replace('\\\\', '.')` from line 41 of dnssecfn.py: each
two-character occurrence of backslash-backslash is replaced, left to right
and without overlap, by a single literal dot. -/
def replBsBsWithDot : List Char → List Char
  | [] => []
  | [c] => [c]
  | c :: d :: r =>
    if c = '\\' ∧ d = '\\' then '.' :: replBsBsWithDot r
    else c :: replBsBsWithDot (d :: r)

/-- Models Python `name.split('.')` from line 39 of dnssecfn.py:
`splitDots "".data = [[]]`, and each dot opens a new (possibly empty)
chunk. -/
def splitDots : List Char → List (List Char)
  | [] => [[]]
  | c :: r => if c = '.' then [] :: splitDots r else
      match splitDots r with
      | [] => [[c]]
      | l :: ls => (c :: l) :: ls

/-- UTF-8 encoding of a single code point, modelling Python
`bytes(label, "utf8")` character by character. -/
def utf8EncodeNat (c : Nat) : List Nat :=
  if c < 128 then [c]
  else if c < 2048 then [192 + c / 64, 128 + c % 64]
  else if c < 65536 then [224 + c / 4096, 128 + c / 64 % 64, 128 + c % 64]
  else [240 + c / 262144, 128 + c / 4096 % 64, 128 + c / 64 % 64, 128 + c % 64]

/-- Models `bytes(label, "utf8")` from line 43 of dnssecfn.py. -/
def utf8Str (l : List Char) : List Nat :=
  l.flatMap (fun c => utf8EncodeNat c.toNat)

/-- Models `bytes.fromhex('%02X' % n)` from line 42 of dnssecfn.py for
`n ≤ 0xFF` (a DNS label is at most 63 octets; for larger `n` the source
raises, a case no theorem below exercises). -/
def lenOctet (n : Nat) : List Nat := [n % 256]

/-- Lines 34-47 of dnssecfn.py, `str_to_owner`: convert a domain name in
presentation format to a binary-encoded (canonical, lower-cased) owner
name.  The source lower-cases, rewrites escaped dots to double
backslashes, splits on dots, and for each non-empty chunk restores the
literal dots, then emits a length octet followed by the chunk's UTF-8
bytes; a single zero octet terminates the name. -/
def str_to_owner (name : String) : List Nat :=
  (splitDots (replEscDot (name.data.map Char.toLower))).foldl
    (fun acc label =>
      if 0 < label.length then
        acc ++ lenOctet (replBsBsWithDot label).length ++ utf8Str (replBsBsWithDot label)
      else acc) [] ++ [0]

/-- Generic resource record as consumed by this core: the fields
`verify_sig` reads from members of the supplied RRset. -/
structure OI_rec where
  fqdn : String
  rectype : Nat
  towire : List Nat
deriving DecidableEq

/-- DNSKEY record accessors used by the core.  `keytag` models the
`keytag()` accessor (a pre-computed 16-bit checksum over the RDATA,
computed by the external record-type collaborator); `towire` is the
wire-encoded RDATA; `wire` is the raw key field used for ECDSA;
`eddsa_a` the raw public bytes used for Ed25519/Ed448; `rsa_n_int`
and `rsa_e_int` the RSA modulus and public exponent. -/
structure OI_DNSKEY_rec where
  fqdn : String
  rectype : Nat
  towire : List Nat
  algorithm : Nat
  keytag : Nat
  rsa_n_int : Nat
  rsa_e_int : Nat
  wire : List Nat
  eddsa_a : List Nat
deriving DecidableEq

/-- RRSIG record accessors used by the core.  `timestamp` is the injected
validation time, `verification_data` the fixed RRSIG metadata prefix
returned by the record's `verification_data()` accessor, `signature` the
raw signature bytes. -/
structure OI_RRSIG_rec where
  fqdn : String
  rectype : Nat
  towire : List Nat
  type_covered : String
  keytag : Nat
  timestamp : Int
  inception : Int
  expiration : Int
  original_ttl : Nat
  verification_data : List Nat
  signature : List Nat
  algorithm : Nat
deriving DecidableEq

/-- A dynamically-typed record value, as passed to the core's entry points:
either a DNSKEY, an RRSIG, or some other record kind (the source
discriminates with `type(...) is` checks). -/
inductive OI_rec_value where
  | dnskey (k : OI_DNSKEY_rec)
  | rrsig (s : OI_RRSIG_rec)
  | other (r : OI_rec)
deriving DecidableEq

/-- The `.fqdn` attribute, present on every record kind. -/
def OI_rec_value.fqdn : OI_rec_value → String
  | OI_rec_value.dnskey k => k.fqdn
  | OI_rec_value.rrsig s => s.fqdn
  | OI_rec_value.other r => r.fqdn

/-- The `.rectype` attribute, present on every record kind. -/
def OI_rec_value.rectype : OI_rec_value → Nat
  | OI_rec_value.dnskey k => k.rectype
  | OI_rec_value.rrsig s => s.rectype
  | OI_rec_value.other r => r.rectype

/-- The `.towire()` accessor, present on every record kind. -/
def OI_rec_value.towire : OI_rec_value → List Nat
  | OI_rec_value.dnskey k => k.towire
  | OI_rec_value.rrsig s => s.towire
  | OI_rec_value.other r => r.towire

/-- A hashlib-style incremental hash object: `digest_fn` is the underlying
(externally supplied) digest function, `acc` the bytes fed so far. -/
structure HashObj where
  digest_fn : List Nat → List Nat
  acc : List Nat

/-- Models `hash_obj.update(data)`: append `data` to the accumulated
input. -/
def HashObj.update (h : HashObj) (data : List Nat) : HashObj :=
  HashObj.mk h.digest_fn (h.acc ++ data)

/-- Models `hash_obj.digest()`. -/
def HashObj.digest (h : HashObj) : List Nat :=
  h.digest_fn h.acc

/-- Lines 53-59 of dnssecfn.py, `compute_ds`: compute a DS digest for the
specified DNSKEY record.  A non-DNSKEY argument raises (modelled as
`Except.error`); otherwise the hash object is updated with the canonical
owner name, then with the DNSKEY's wire RDATA, and the digest is
returned. -/
def compute_ds (hash_obj : HashObj) (dnskey : OI_rec_value) : Except String (List Nat) :=
  match dnskey with
  | OI_rec_value.dnskey k =>
      Except.ok (((hash_obj.update (str_to_owner k.fqdn)).update k.towire).digest)
  | _ => Except.error ("Cannot compute a DS for something that is not a DNSKEY")

/-- The digest chosen inside the RSA branch (lines 130-135): algorithms 5
and 7 use Crypto.Hash.SHA (SHA-1), 8 uses SHA256, 10 uses SHA512. -/
inductive RsaHash where
  | sha
  | sha256
  | sha512
deriving DecidableEq

/-- The curve handed to `ecdsa.VerifyingKey.from_string` (lines 154,
157). -/
inductive EcCurve where
  | nist256p
  | nist384p
deriving DecidableEq

/-- The hashlib digest handed to `vk.verify` in the ECDSA branch (lines
155, 158). -/
inductive EcHashFn where
  | sha256
  | sha384
deriving DecidableEq

/-- Abstract oracle standing for the external cryptographic libraries.
Each field receives exactly the data the source hands to the library for
one verification attempt and returns the library's verdict;
`Except.error e` models an exception raised anywhere inside the
corresponding `try` block (key construction included), with `e` the
exception text. -/
structure CryptoBackend where
  rsa_pkcs1v15 : Nat → Nat → RsaHash → List Nat → List Nat → Except String Bool
  ecdsa_verify : EcCurve → EcHashFn → List Nat → List Nat → List Nat → Except String Bool
  ed25519_verify : List Nat → List Nat → List Nat → Except String Bool
  ed448_verify : List Nat → List Nat → List Nat → Except String Bool

/-- The if/elif hash selection of lines 130-135, applied only under the
`key.algorithm in [5, 7, 8, 10]` guard. -/
def rsa_hash_of (alg : Nat) : RsaHash :=
  if alg = 5 ∨ alg = 7 then RsaHash.sha
  else if alg = 8 then RsaHash.sha256
  else RsaHash.sha512

/-- Models `bytes.fromhex('%04X' % n)` (big-endian, two octets) for
`n ≤ 0xFFFF`, as used for the record type and RDATA length fields. -/
def be16 (n : Nat) : List Nat := [n / 256 % 256, n % 256]

/-- Models `bytes.fromhex('%08X' % n)` (big-endian, four octets) for
`n ≤ 0xFFFFFFFF`, as used for the original TTL field. -/
def be32 (n : Nat) : List Nat :=
  [n / 16777216 % 256, n / 65536 % 256, n / 256 % 256, n % 256]

/-- Lines 96-105 of dnssecfn.py: the (prefix, rdata) pair built for one
record of the RRset.  The prefix is the canonical owner name, the 2-byte
record type, the class (always IN, `0x0001`), the 4-byte original TTL
taken from the RRSIG, and the 2-byte RDATA length; `rdata` is the
record's wire form. -/
def rr_wire_pair (rrsig : OI_RRSIG_rec) (rec : OI_rec_value) : List Nat × List Nat :=
  (str_to_owner rec.fqdn ++ be16 rec.rectype ++ [0, 1] ++
     be32 rrsig.original_ttl ++ be16 rec.towire.length,
   rec.towire)

/-- Lexicographic comparison of byte strings, as Python compares `bytes`
values: shorter-is-earlier when one is a prefix of the other. -/
def bytesLe : List Nat → List Nat → Bool
  | [], _ => true
  | _ :: _, [] => false
  | a :: as, b :: bs => if a < b then true else if b < a then false else bytesLe as bs

/-- The sort key of line 108: compare the pairs by their second component
(the wire RDATA). -/
def rdataLe (p q : List Nat × List Nat) : Bool := bytesLe p.2 q.2

/-- Stable insertion of `x` into an already sorted list: `x` is placed
after every element `y` with `le y x` (so after all elements comparing
equal to it). -/
def ordInsert {α : Type} (le : α → α → Bool) (x : α) : List α → List α
  | [] => [x]
  | y :: ys => if le y x then y :: ordInsert le x ys else x :: y :: ys

/-- Stable sort by repeated insertion, processing the input left to
right.  Python's `list.sort` (line 108) is guaranteed stable, and any two
stable sorts with the same key agree on every input, so this models
`wire_rrset.sort(key=lambda x: x[1])` exactly. -/
def stableSort {α : Type} (le : α → α → Bool) (l : List α) : List α :=
  l.foldl (fun acc x => ordInsert le x acc) []

/-- Lines 93-116 of dnssecfn.py: build the signature verification data.
The RRset is converted to (prefix, rdata) pairs, canonically ordered by
rdata, and concatenated after the RRSIG's verification-data prefix. -/
def build_signing_input (rrsig : OI_RRSIG_rec) (rrset : List OI_rec_value) : List Nat :=
  rrsig.verification_data ++
    (stableSort rdataLe (rrset.map (rr_wire_pair rrsig))).foldl
      (fun acc p => acc ++ p.1 ++ p.2) []

/-- Lines 82-87 of dnssecfn.py: collect the DNSKEYs of the key set whose
key tag equals the RRSIG's key tag, skipping entries that are not DNSKEY
records. -/
def matching_keys_of (dnskeyset : List OI_rec_value) (tag : Nat) : List OI_DNSKEY_rec :=
  dnskeyset.filterMap (fun r =>
    match r with
    | OI_rec_value.dnskey k => if k.keytag = tag then some k else none
    | _ => none)

/-- Models the attribute access `k.keytag()` of line 90, applied to an
arbitrary member of the key set: it raises (AttributeError / TypeError)
when the member is not a DNSKEY record. -/
def keytag_attr : OI_rec_value → Except String Nat
  | OI_rec_value.dnskey k => Except.ok k.keytag
  | _ => Except.error ("object has no attribute keytag")

/-- The list comprehension `[k.keytag() for k in dnskeyset]` of line 90:
it raises as soon as one member is not a DNSKEY record. -/
def keytags_of : List OI_rec_value → Except String (List Nat)
  | [] => Except.ok []
  | r :: rs =>
    match keytag_attr r with
    | Except.error e => Except.error e
    | Except.ok t =>
      match keytags_of rs with
      | Except.error e => Except.error e
      | Except.ok ts => Except.ok (t :: ts)

/-- Models the expression `rrset[0].fqdn`, used when formatting warnings:
on an empty RRset Python raises IndexError. -/
def head_fqdn : List OI_rec_value → Except String String
  | [] => Except.error ("list index out of range")
  | r :: _ => Except.ok r.fqdn

/-- Returned reason of line 73. -/
def reason_notyet (r : OI_RRSIG_rec) : String :=
  "RRSIG is not yet valid (timestamp " ++ toString r.timestamp ++
    ", inception " ++ toString r.inception ++ ")"

/-- Returned reason of line 77. -/
def reason_expired (r : OI_RRSIG_rec) : String :=
  "RRSIG has expired (timestamp " ++ toString r.timestamp ++
    ", expiration " ++ toString r.expiration ++ ")"

/-- Initial reason of line 120, returned when no key verifies. -/
def reason_could_not (keys : List OI_DNSKEY_rec) : String :=
  "Could not verify signature with any of the provided DNSKEYs [" ++
    String.intercalate (",") (keys.map (fun k => toString k.keytag)) ++ "]"

/-- Warning text of line 72. -/
def warn_notyet_msg (f : String) (r : OI_RRSIG_rec) : String :=
  "Signature for " ++ f ++ " on " ++ r.type_covered ++ " not valid yet (" ++
    toString r.timestamp ++ " < " ++ toString r.inception ++ ")"

/-- Warning text of line 76. -/
def warn_expired_msg (f : String) (r : OI_RRSIG_rec) : String :=
  "Signature for " ++ f ++ " on " ++ r.type_covered ++ " expired (" ++
    toString r.timestamp ++ " > " ++ toString r.expiration ++ ")"

/-- Warning text of line 90. -/
def warn_nokey_msg (r : OI_RRSIG_rec) (f : String) (tags : List Nat) : String :=
  "Failed to find a DNSKEY with tag " ++ toString r.keytag ++
    " while validating signature over " ++ f ++ " for " ++ r.type_covered ++
    " (have keytag(s) [" ++ String.intercalate (", ") (tags.map toString) ++ "])"

/-- Warning text of lines 144, 165, 178, 190: failed validation with one
key of the named algorithm family. -/
def fail_msg (fam f tc : String) (kt : Nat) : String :=
  "Failed to validate " ++ fam ++ " signature for " ++ f ++ " (type " ++ tc ++
    ") with DNSKEY with tag " ++ toString kt

/-- Warning text of lines 146, 167, 180, 192: an exception was caught
while attempting one key of the named algorithm family. -/
def exc_msg (fam f tc : String) (kt : Nat) (e : String) : String :=
  "Exception while validating " ++ fam ++ " signature for " ++ f ++ " (type " ++ tc ++
    ") with DNSKEY with tag " ++ toString kt ++ " (e=\"" ++ e ++ "\")"

/-- Warning text of line 194: algorithm not supported. -/
def skip_msg (tc f : String) (alg : Nat) : String :=
  "Skipped signature validation of " ++ tc ++ " record for " ++ f ++
    " because algorithm " ++ toString alg ++ " is not supported"

/-- One iteration of the key loop (lines 122-194) for a single matching
key: the dispatch on `key.algorithm`, the oracle call for the selected
family, and the warning the iteration would log (`none` on success).
`fq` is the lazily-faulting `rrset[0].fqdn`: branches that log evaluate
it while formatting, so with an empty RRset they raise (the source's
in-branch log calls sit inside `try`, but the handler re-formats the
same expression, so the IndexError still escapes). -/
def attempt_key (C : CryptoBackend) (fq : Except String String) (tc : String)
    (si sg : List Nat) (key : OI_DNSKEY_rec) : Except String (Option String × Bool) :=
  if key.algorithm = 5 ∨ key.algorithm = 7 ∨ key.algorithm = 8 ∨ key.algorithm = 10 then
    match C.rsa_pkcs1v15 key.rsa_n_int key.rsa_e_int (rsa_hash_of key.algorithm) si sg with
    | Except.ok true => Except.ok (none, true)
    | Except.ok false => fq.map (fun f => (some (fail_msg ("RSA") f tc key.keytag), false))
    | Except.error e => fq.map (fun f => (some (exc_msg ("RSA") f tc key.keytag e), false))
  else if key.algorithm = 13 ∨ key.algorithm = 14 then
    match (if key.algorithm = 13
           then C.ecdsa_verify EcCurve.nist256p EcHashFn.sha256 key.wire si sg
           else C.ecdsa_verify EcCurve.nist384p EcHashFn.sha384 key.wire si sg) with
    | Except.ok true => Except.ok (none, true)
    | Except.ok false => fq.map (fun f => (some (fail_msg ("ECDSA") f tc key.keytag), false))
    | Except.error e => fq.map (fun f => (some (exc_msg ("ECDSA") f tc key.keytag e), false))
  else if key.algorithm = 15 then
    match C.ed25519_verify key.eddsa_a si sg with
    | Except.ok true => Except.ok (none, true)
    | Except.ok false => fq.map (fun f => (some (fail_msg ("EdDSA") f tc key.keytag), false))
    | Except.error e => fq.map (fun f => (some (exc_msg ("EdDSA") f tc key.keytag e), false))
  else if key.algorithm = 16 then
    match C.ed448_verify key.eddsa_a si sg with
    | Except.ok true => Except.ok (none, true)
    | Except.ok false => fq.map (fun f => (some (fail_msg ("EdDSA") f tc key.keytag), false))
    | Except.error e => fq.map (fun f => (some (exc_msg ("EdDSA") f tc key.keytag e), false))
  else
    fq.map (fun f => (some (skip_msg tc f key.algorithm), false))

/-- The key loop of lines 122-194: try the matching keys in collection
order, logging each iteration's warning, stopping at the first success.
The returned Bool is `verify_pass`; `Except.error` is an escaping
exception (only possible via `fq`, see `attempt_key`). -/
def try_keys {L : Type} (warn : L → String → L) (C : CryptoBackend)
    (fq : Except String String) (tc : String) (si sg : List Nat) :
    L → List OI_DNSKEY_rec → L × Except String Bool
  | logger, [] => (logger, Except.ok false)
  | logger, k :: ks =>
    match attempt_key C fq tc si sg k with
    | Except.error e => (logger, Except.error e)
    | Except.ok (m, ok) =>
      let logger2 := match m with
        | some msg => warn logger msg
        | none => logger
      if ok then (logger2, Except.ok true)
      else try_keys warn C fq tc si sg logger2 ks

/-- Lines 66-196 of dnssecfn.py, `verify_sig`: verify the supplied
signature for the supplied RRset using the supplied DNSKEY set.  The
first component is the final logger state; the second is the returned
`(verify_pass, reason)` pair, or `Except.error` when an exception
escapes the call (non-RRSIG third argument, or IndexError from
`rrset[0]` / AttributeError from `k.keytag()` raised while formatting a
warning). -/
def verify_sig {L : Type} (warn : L → String → L) (logger : L) (C : CryptoBackend)
    (rrset dnskeyset : List OI_rec_value) (rrsig_arg : OI_rec_value) :
    L × Except String (Bool × String) :=
  match rrsig_arg with
  | OI_rec_value.rrsig rrsig =>
    if rrsig.timestamp < rrsig.inception - signature_grace_time then
      match head_fqdn rrset with
      | Except.error e => (logger, Except.error e)
      | Except.ok f =>
        (warn logger (warn_notyet_msg f rrsig), Except.ok (false, reason_notyet rrsig))
    else if rrsig.timestamp > rrsig.expiration + signature_grace_time then
      match head_fqdn rrset with
      | Except.error e => (logger, Except.error e)
      | Except.ok f =>
        (warn logger (warn_expired_msg f rrsig), Except.ok (false, reason_expired rrsig))
    else
      match matching_keys_of dnskeyset rrsig.keytag with
      | [] =>
        match head_fqdn rrset with
        | Except.error e => (logger, Except.error e)
        | Except.ok f =>
          match keytags_of dnskeyset with
          | Except.error e => (logger, Except.error e)
          | Except.ok tags =>
            (warn logger (warn_nokey_msg rrsig f tags),
             Except.ok (false, "Failed to find a matching DNSKEY"))
      | k0 :: krest =>
        match try_keys warn C (head_fqdn rrset) rrsig.type_covered
            (build_signing_input rrsig rrset) rrsig.signature logger (k0 :: krest) with
        | (lg, Except.error e) => (lg, Except.error e)
        | (lg, Except.ok pass) =>
          (lg, Except.ok (pass,
            if pass then "Signature validated OK" else reason_could_not (k0 :: krest)))
  | _ => (logger, Except.error ("Can only verify RRSIG records"))

/-- The pure verdict of one key-loop iteration: `true` exactly when the
selected oracle call answers `Except.ok true`; a clean failure, a caught
exception, and an unsupported algorithm all yield `false`.  This is
`attempt_key` stripped of its logging. -/
def attempt_dec (C : CryptoBackend) (si sg : List Nat) (key : OI_DNSKEY_rec) : Bool :=
  if key.algorithm = 5 ∨ key.algorithm = 7 ∨ key.algorithm = 8 ∨ key.algorithm = 10 then
    match C.rsa_pkcs1v15 key.rsa_n_int key.rsa_e_int (rsa_hash_of key.algorithm) si sg with
    | Except.ok true => true
    | _ => false
  else if key.algorithm = 13 ∨ key.algorithm = 14 then
    match (if key.algorithm = 13
           then C.ecdsa_verify EcCurve.nist256p EcHashFn.sha256 key.wire si sg
           else C.ecdsa_verify EcCurve.nist384p EcHashFn.sha384 key.wire si sg) with
    | Except.ok true => true
    | _ => false
  else if key.algorithm = 15 then
    match C.ed25519_verify key.eddsa_a si sg with
    | Except.ok true => true
    | _ => false
  else if key.algorithm = 16 then
    match C.ed448_verify key.eddsa_a si sg with
    | Except.ok true => true
    | _ => false
  else false

/-- The pure verdict of the whole key loop: the first key whose attempt
succeeds makes it `true`. -/
def loop_dec (C : CryptoBackend) (si sg : List Nat) : List OI_DNSKEY_rec → Bool
  | [] => false
  | k :: ks => if attempt_dec C si sg k then true else loop_dec C si sg ks

/-- The caller-supplied precondition on an RRset (spec section 3): all
records share the same owner name (compared as DNS names, i.e. by their
canonical owner encoding) and the same record type.  The class is
constant `IN` in this model. -/
@[reducible] def rrset_homogeneous (rrset : List OI_rec_value) : Prop :=
  ∀ r1, r1 ∈ rrset → ∀ r2, r2 ∈ rrset →
    str_to_owner r1.fqdn = str_to_owner r2.fqdn ∧ r1.rectype = r2.rectype

/-- Push a character onto the first chunk of a chunk list. -/
def consHead (c : Char) : List (List Char) → List (List Char)
  | [] => [[c]]
  | l :: ls => (c :: l) :: ls

/-- Specification-side parse of a presentation name whose only escapes
are `\.`: split on unescaped dots, an escaped dot becoming a literal dot
inside the current label. -/
def parseLabels : List Char → List (List Char)
  | [] => [[]]
  | [c] => if c = '.' then [[], []] else [[c]]
  | c :: d :: r =>
    if c = '\\' ∧ d = '.' then consHead '.' (parseLabels r)
    else if c = '.' then [] :: parseLabels (d :: r)
    else consHead c (parseLabels (d :: r))

/-- Every backslash in the name is immediately followed by a dot, i.e.
the only escape sequences used are `\.`. -/
def escapesOnlyDot : List Char → Bool
  | [] => true
  | [c] => if c = '\\' then false else true
  | c :: d :: r =>
    if c = '\\' then (if d = '.' then escapesOnlyDot r else false)
    else escapesOnlyDot (d :: r)

/-- A list-of-messages logger used by concrete instantiations: warnings
are appended in emission order. -/
def consWarn : List String → String → List String := fun l m => l ++ [m]

/-- Oracle on which every verification attempt fails cleanly. -/
def crypto_false : CryptoBackend :=
  CryptoBackend.mk (fun _ _ _ _ _ => Except.ok false) (fun _ _ _ _ _ => Except.ok false)
    (fun _ _ _ => Except.ok false) (fun _ _ _ => Except.ok false)

/-- Oracle on which every RSA verification attempt succeeds. -/
def crypto_true : CryptoBackend :=
  CryptoBackend.mk (fun _ _ _ _ _ => Except.ok true) (fun _ _ _ _ _ => Except.ok false)
    (fun _ _ _ => Except.ok false) (fun _ _ _ => Except.ok false)

/-- Oracle whose RSA verifier raises for the key with modulus 1 and
succeeds for any other modulus (used to exhibit a caught per-key
exception followed by a later success). -/
def crypto_sel : CryptoBackend :=
  CryptoBackend.mk
    (fun n _ _ _ _ => if n = 1 then Except.error ("boom") else Except.ok true)
    (fun _ _ _ _ _ => Except.ok false)
    (fun _ _ _ => Except.ok false) (fun _ _ _ => Except.ok false)

/-- A concrete generic resource record for witnesses. -/
def demo_rr : OI_rec_value :=
  OI_rec_value.other (OI_rec.mk ("example.") 1 [10, 20, 30])

/-- A concrete RRSIG record (key tag 4242, inception 500, expiration
1500) with selectable algorithm and validation timestamp. -/
def demo_rrsig (alg : Nat) (ts : Int) : OI_RRSIG_rec :=
  OI_RRSIG_rec.mk ("example.") 46 [] ("A") 4242 ts 500 1500 300 [9, 9] [1, 2, 3] alg

/-- A concrete DNSKEY record with selectable algorithm, key tag and RSA
modulus. -/
def demo_key (alg tag n : Nat) : OI_DNSKEY_rec :=
  OI_DNSKEY_rec.mk ("example.") 48 [5, 6] alg tag n 3 [7] [8]

/-- The `type(dnskey) is oidnstypes.OI_DNSKEY_rec` test of line 83, as a
record-kind predicate. -/
def is_dnskey_rec : OI_rec_value → Bool
  | OI_rec_value.dnskey _ => true
  | _ => false

/-- A second generic record sharing owner and type with `demo_rr` but
carrying different RDATA (for permutation witnesses). -/
def demo_rr2 : OI_rec_value :=
  OI_rec_value.other (OI_rec.mk ("example.") 1 [11, 21, 31])

/-! ### Substring occurrence ("the reason string mentions ...") -/

/-- Boolean test that `sub` occurs at the start of `l`. -/
def startsWithL : List Char → List Char → Bool
  | [], _ => true
  | _ :: _, [] => false
  | a :: as, b :: bs => if a = b then startsWithL as bs else false

/-- Boolean test that `sub` occurs contiguously somewhere inside `l`. -/
def occursIn (sub : List Char) : List Char → Bool
  | [] => startsWithL sub []
  | c :: rest => if startsWithL sub (c :: rest) then true else occursIn sub rest

/-- The string `s` mentions `sub`: `sub` occurs contiguously in `s`. -/
def mentions (s sub : String) : Prop := occursIn sub.data s.data = true

theorem startsWithL_self_append (sub t : List Char) : startsWithL sub (sub ++ t) = true := by
  induction sub with
  | nil => rfl
  | cons a as ih => simp [startsWithL, ih]

theorem occursIn_self_append (sub t : List Char) : occursIn sub (sub ++ t) = true := by
  match sub, t with
  | [], [] => rfl
  | [], c :: t => simp [occursIn, startsWithL]
  | a :: as, t =>
    show occursIn (a :: as) (a :: (as ++ t)) = true
    have h := startsWithL_self_append (a :: as) t
    rw [List.cons_append] at h
    simp [occursIn, h]

theorem occursIn_cons_of (sub l : List Char) (c : Char) (h : occursIn sub l = true) :
    occursIn sub (c :: l) = true := by
  rw [occursIn]
  split
  · rfl
  · exact h

theorem occursIn_append_of (sub pre l : List Char) (h : occursIn sub l = true) :
    occursIn sub (pre ++ l) = true := by
  induction pre with
  | nil => exact h
  | cons c cs ih => exact occursIn_cons_of _ _ _ ih

theorem occursIn_self (sub : List Char) : occursIn sub sub = true := by
  have h := occursIn_self_append sub []
  rw [List.append_nil] at h
  exact h

theorem startsWithL_append_right (sub : List Char) : ∀ (l post : List Char),
    startsWithL sub l = true → startsWithL sub (l ++ post) = true := by
  induction sub with
  | nil => intro l post _; rfl
  | cons a as ih =>
    intro l post h
    match l with
    | [] => exact absurd h (by simp [startsWithL])
    | b :: bs =>
      rw [List.cons_append]
      rw [startsWithL] at h ⊢
      rcases Decidable.em (a = b) with hab | hab
      · rw [if_pos hab] at h ⊢
        exact ih bs post h
      · rw [if_neg hab] at h
        exact absurd h (by simp)

theorem occursIn_append_right (sub : List Char) : ∀ (l post : List Char),
    occursIn sub l = true → occursIn sub (l ++ post) = true := by
  intro l
  induction l with
  | nil =>
    intro post h
    match sub with
    | [] =>
      match post with
      | [] => rfl
      | c :: cs => simp [occursIn, startsWithL]
    | a :: as => exact absurd h (by simp [occursIn, startsWithL])
  | cons c cs ih =>
    intro post h
    rw [occursIn] at h
    rw [List.cons_append]
    rcases hst : startsWithL sub (c :: cs) with hf | ht
    · rw [hst] at h
      simp only [Bool.false_eq_true, if_false] at h
      exact occursIn_cons_of _ _ _ (ih post h)
    · have h2 := startsWithL_append_right sub (c :: cs) post hst
      rw [List.cons_append] at h2
      rw [occursIn, h2]
      rfl

/-! ### First-character disagreement between reason strings -/

theorem string_ne_of_head (s t : String) (c d : Char) (hs : s.data.head? = some c)
    (ht : t.data.head? = some d) (hcd : c ≠ d) : s ≠ t := by
  intro h
  apply hcd
  rw [h] at hs
  rw [hs] at ht
  exact Option.some.inj ht

theorem reason_notyet_head (r : OI_RRSIG_rec) : (reason_notyet r).data.head? = some 'R' := rfl

theorem reason_expired_head (r : OI_RRSIG_rec) : (reason_expired r).data.head? = some 'R' := rfl

theorem reason_could_not_head (keys : List OI_DNSKEY_rec) :
    (reason_could_not keys).data.head? = some 'C' := rfl

/-! ### The stable sort -/

theorem ordInsert_perm {α : Type} (le : α → α → Bool) (x : α) (l : List α) :
    List.Perm (ordInsert le x l) (x :: l) := by
  induction l with
  | nil => exact List.Perm.refl _
  | cons y ys ih =>
    rw [ordInsert]
    split
    · exact List.Perm.trans (List.Perm.cons y ih) (List.Perm.swap x y ys)
    · exact List.Perm.refl _

theorem stableSort_perm_aux {α : Type} (le : α → α → Bool) (l acc : List α) :
    List.Perm (l.foldl (fun acc x => ordInsert le x acc) acc) (acc ++ l) := by
  induction l generalizing acc with
  | nil => simp
  | cons x xs ih =>
    rw [List.foldl_cons]
    refine List.Perm.trans (ih (ordInsert le x acc)) ?_
    refine List.Perm.trans (List.Perm.append_right xs (ordInsert_perm le x acc)) ?_
    exact (List.perm_middle).symm

theorem stableSort_perm {α : Type} (le : α → α → Bool) (l : List α) :
    List.Perm (stableSort le l) l :=
  stableSort_perm_aux le l []

theorem ordInsert_pairwise {α : Type} (le : α → α → Bool)
    (htot : ∀ a b, (le a b || le b a) = true)
    (htrans : ∀ a b c, le a b = true → le b c = true → le a c = true)
    (x : α) (l : List α) (h : List.Pairwise (fun a b => le a b = true) l) :
    List.Pairwise (fun a b => le a b = true) (ordInsert le x l) := by
  induction l with
  | nil => simp [ordInsert]
  | cons y ys ih =>
    rw [ordInsert]
    rcases List.pairwise_cons.mp h with ⟨hy, hys⟩
    split
    · next hle =>
      refine List.pairwise_cons.mpr ⟨?_, ih hys⟩
      intro a ha
      have hmem : a ∈ x :: ys := (ordInsert_perm le x ys).mem_iff.mp ha
      rcases List.mem_cons.mp hmem with h1 | h2
      · rw [h1]; exact hle
      · exact hy a h2
    · next hle =>
      have hxy : le x y = true := by
        have := htot x y
        rw [Bool.or_eq_true] at this
        rcases this with h1 | h2
        · exact h1
        · exact absurd h2 hle
      refine List.pairwise_cons.mpr ⟨?_, h⟩
      intro a ha
      rcases List.mem_cons.mp ha with h1 | h2
      · rw [h1]; exact hxy
      · exact htrans x y a hxy (hy a h2)

theorem stableSort_pairwise_aux {α : Type} (le : α → α → Bool)
    (htot : ∀ a b, (le a b || le b a) = true)
    (htrans : ∀ a b c, le a b = true → le b c = true → le a c = true)
    (l acc : List α) (hacc : List.Pairwise (fun a b => le a b = true) acc) :
    List.Pairwise (fun a b => le a b = true)
      (l.foldl (fun acc x => ordInsert le x acc) acc) := by
  induction l generalizing acc with
  | nil => exact hacc
  | cons x xs ih =>
    rw [List.foldl_cons]
    exact ih _ (ordInsert_pairwise le htot htrans x acc hacc)

theorem stableSort_pairwise {α : Type} (le : α → α → Bool)
    (htot : ∀ a b, (le a b || le b a) = true)
    (htrans : ∀ a b c, le a b = true → le b c = true → le a c = true) (l : List α) :
    List.Pairwise (fun a b => le a b = true) (stableSort le l) :=
  stableSort_pairwise_aux le htot htrans l [] (List.Pairwise.nil)

/-- Two sorted lists that are permutations of one another and whose
members are pointwise forced equal by mutual comparison are equal. -/
theorem sorted_perm_eq {α : Type} (le : α → α → Bool) :
    ∀ (l₁ l₂ : List α), List.Perm l₁ l₂ →
      List.Pairwise (fun a b => le a b = true) l₁ →
      List.Pairwise (fun a b => le a b = true) l₂ →
      (∀ a, a ∈ l₁ → ∀ b, b ∈ l₁ → le a b = true → le b a = true → a = b) →
      l₁ = l₂
  | [], l₂, hperm, _, _, _ => (hperm.nil_eq).symm ▸ rfl
  | a :: t₁, [], hperm, _, _, _ => absurd hperm.symm.nil_eq (by simp)
  | a :: t₁, b :: t₂, hperm, hs₁, hs₂, hanti => by
    rcases List.pairwise_cons.mp hs₁ with ⟨ha, ht₁⟩
    rcases List.pairwise_cons.mp hs₂ with ⟨hb, ht₂⟩
    have hab : a = b := by
      by_cases heq : a = b
      · exact heq
      · have hain : a ∈ b :: t₂ := hperm.mem_iff.mp (List.mem_cons_self a t₁)
        have hbin : b ∈ a :: t₁ := hperm.symm.mem_iff.mp (List.mem_cons_self b t₂)
        have hat₂ : a ∈ t₂ := by
          rcases List.mem_cons.mp hain with h1 | h2
          · exact absurd h1 heq
          · exact h2
        have hbt₁ : b ∈ t₁ := by
          rcases List.mem_cons.mp hbin with h1 | h2
          · exact absurd h1.symm heq
          · exact h2
        exact hanti a (List.mem_cons_self a t₁) b (List.mem_cons_of_mem a hbt₁)
          (ha b hbt₁) (hb a hat₂)
    subst hab
    have htail : t₁ = t₂ :=
      sorted_perm_eq le t₁ t₂ (hperm.cons_inv) ht₁ ht₂
        (fun x hx y hy => hanti x (List.mem_cons_of_mem a hx) y (List.mem_cons_of_mem a hy))
    rw [htail]

/-! ### Byte-string comparison facts -/

theorem bytesLe_total (a b : List Nat) : (bytesLe a b || bytesLe b a) = true := by
  induction a generalizing b with
  | nil => simp [bytesLe]
  | cons x xs ih =>
    match b with
    | [] => simp [bytesLe]
    | y :: ys =>
      rw [bytesLe, bytesLe]
      rcases Nat.lt_trichotomy x y with h | h | h
      · simp [h, Nat.not_lt_of_lt h]
      · subst h
        rw [if_neg (Nat.lt_irrefl x), if_neg (Nat.lt_irrefl x), if_neg (Nat.lt_irrefl x),
          if_neg (Nat.lt_irrefl x)]
        exact ih ys
      · simp [h, Nat.not_lt_of_lt h]

theorem bytesLe_trans (a b c : List Nat) (h1 : bytesLe a b = true) (h2 : bytesLe b c = true) :
    bytesLe a c = true := by
  induction a generalizing b c with
  | nil => simp [bytesLe]
  | cons x xs ih =>
    match b, c with
    | [], _ => simp [bytesLe] at h1
    | _ :: _, [] => simp [bytesLe] at h2
    | y :: ys, z :: zs =>
      rw [bytesLe] at h1 h2 ⊢
      rcases Nat.lt_trichotomy x y with hxy | hxy | hxy
      · rcases Nat.lt_trichotomy y z with hyz | hyz | hyz
        · simp [Nat.lt_trans hxy hyz]
        · subst hyz; simp [hxy]
        · simp [hyz, Nat.not_lt_of_lt hyz] at h2
      · subst hxy
        rcases Nat.lt_trichotomy x z with hyz | hyz | hyz
        · simp [hyz]
        · subst hyz
          simp [Nat.lt_irrefl] at h1 h2 ⊢
          exact ih ys zs h1 h2
        · simp [hyz, Nat.not_lt_of_lt hyz] at h2
      · simp [hxy, Nat.not_lt_of_lt hxy] at h1

theorem bytesLe_antisymm (a b : List Nat) (h1 : bytesLe a b = true) (h2 : bytesLe b a = true) :
    a = b := by
  induction a generalizing b with
  | nil =>
    match b with
    | [] => rfl
    | y :: ys => simp [bytesLe] at h2
  | cons x xs ih =>
    match b with
    | [] => simp [bytesLe] at h1
    | y :: ys =>
      rw [bytesLe] at h1 h2
      rcases Nat.lt_trichotomy x y with hxy | hxy | hxy
      · simp [hxy, Nat.not_lt_of_lt hxy] at h2
      · subst hxy
        simp [Nat.lt_irrefl] at h1 h2
        rw [ih ys h1 h2]
      · simp [hxy, Nat.not_lt_of_lt hxy] at h1

/-! ### Concatenation of the sorted pairs -/

theorem foldl_concat_pairs (l : List (List Nat × List Nat)) (acc : List Nat) :
    l.foldl (fun acc p => acc ++ p.1 ++ p.2) acc =
      acc ++ (l.map (fun p => p.1 ++ p.2)).flatten := by
  induction l generalizing acc with
  | nil => simp
  | cons p ps ih =>
    rw [List.foldl_cons, ih]
    simp

/-! ### Key-loop facts -/

theorem attempt_key_ok (C : CryptoBackend) (f tc : String) (si sg : List Nat)
    (k : OI_DNSKEY_rec) :
    ∃ m, attempt_key C (Except.ok f) tc si sg k = Except.ok (m, attempt_dec C si sg k) := by
  rw [attempt_key, attempt_dec]
  by_cases h1 : k.algorithm = 5 ∨ k.algorithm = 7 ∨ k.algorithm = 8 ∨ k.algorithm = 10
  · rw [if_pos h1, if_pos h1]
    rcases hr : C.rsa_pkcs1v15 k.rsa_n_int k.rsa_e_int (rsa_hash_of k.algorithm) si sg with e | b
    · exact ⟨some (exc_msg ("RSA") f tc k.keytag e), rfl⟩
    · cases b
      · exact ⟨some (fail_msg ("RSA") f tc k.keytag), rfl⟩
      · exact ⟨none, rfl⟩
  · rw [if_neg h1, if_neg h1]
    by_cases h2 : k.algorithm = 13 ∨ k.algorithm = 14
    · rw [if_pos h2, if_pos h2]
      rcases hr : (if k.algorithm = 13
          then C.ecdsa_verify EcCurve.nist256p EcHashFn.sha256 k.wire si sg
          else C.ecdsa_verify EcCurve.nist384p EcHashFn.sha384 k.wire si sg) with e | b
      · exact ⟨some (exc_msg ("ECDSA") f tc k.keytag e), rfl⟩
      · cases b
        · exact ⟨some (fail_msg ("ECDSA") f tc k.keytag), rfl⟩
        · exact ⟨none, rfl⟩
    · rw [if_neg h2, if_neg h2]
      by_cases h3 : k.algorithm = 15
      · rw [if_pos h3, if_pos h3]
        rcases hr : C.ed25519_verify k.eddsa_a si sg with e | b
        · exact ⟨some (exc_msg ("EdDSA") f tc k.keytag e), rfl⟩
        · cases b
          · exact ⟨some (fail_msg ("EdDSA") f tc k.keytag), rfl⟩
          · exact ⟨none, rfl⟩
      · rw [if_neg h3, if_neg h3]
        by_cases h4 : k.algorithm = 16
        · rw [if_pos h4, if_pos h4]
          rcases hr : C.ed448_verify k.eddsa_a si sg with e | b
          · exact ⟨some (exc_msg ("EdDSA") f tc k.keytag e), rfl⟩
          · cases b
            · exact ⟨some (fail_msg ("EdDSA") f tc k.keytag), rfl⟩
            · exact ⟨none, rfl⟩
        · rw [if_neg h4, if_neg h4]
          exact ⟨some (skip_msg tc f k.algorithm), rfl⟩

theorem try_keys_ok {L : Type} (warn : L → String → L) (C : CryptoBackend) (f tc : String)
    (si sg : List Nat) : ∀ (ks : List OI_DNSKEY_rec) (lg : L),
    ∃ lg2, try_keys warn C (Except.ok f) tc si sg lg ks =
      (lg2, Except.ok (loop_dec C si sg ks)) := by
  intro ks
  induction ks with
  | nil => exact fun lg => ⟨lg, rfl⟩
  | cons k ks ih =>
    intro lg
    obtain ⟨m, hm⟩ := attempt_key_ok C f tc si sg k
    rw [try_keys, hm, loop_dec]
    cases hd : attempt_dec C si sg k
    · rw [if_neg (by simp)]
      simp only [Bool.false_eq_true, if_false]
      exact ih _
    · rw [if_pos rfl]
      simp only [if_true]
      exact ⟨_, rfl⟩

theorem try_keys_snd {L₁ L₂ : Type} (warn₁ : L₁ → String → L₁) (warn₂ : L₂ → String → L₂)
    (C : CryptoBackend) (fq : Except String String) (tc : String) (si sg : List Nat) :
    ∀ (ks : List OI_DNSKEY_rec) (lg₁ : L₁) (lg₂ : L₂),
    (try_keys warn₁ C fq tc si sg lg₁ ks).2 = (try_keys warn₂ C fq tc si sg lg₂ ks).2 := by
  intro ks
  induction ks with
  | nil => exact fun lg₁ lg₂ => rfl
  | cons k ks ih =>
    intro lg₁ lg₂
    rw [try_keys, try_keys]
    rcases hm : attempt_key C fq tc si sg k with e | ⟨m, ok⟩
    · rfl
    · cases ok
      · simp only []
        exact ih _ _
      · rfl

theorem loop_dec_append (C : CryptoBackend) (si sg : List Nat) (pre rest : List OI_DNSKEY_rec)
    (h : ∀ k, k ∈ pre → attempt_dec C si sg k = false) :
    loop_dec C si sg (pre ++ rest) = loop_dec C si sg rest := by
  induction pre with
  | nil => rfl
  | cons k ks ih =>
    rw [List.cons_append, loop_dec, h k (List.mem_cons_self k ks),
      ih (fun a ha => h a (List.mem_cons_of_mem k ha))]
    simp

theorem attempt_key_unsupported (C : CryptoBackend) (f tc : String) (si sg : List Nat)
    (k : OI_DNSKEY_rec)
    (h : k.algorithm ∉ ([5, 7, 8, 10, 13, 14, 15, 16] : List Nat)) :
    attempt_key C (Except.ok f) tc si sg k =
      Except.ok (some (skip_msg tc f k.algorithm), false) := by
  simp only [List.mem_cons, List.mem_singleton, not_or] at h
  rw [attempt_key, if_neg (by tauto), if_neg (by tauto), if_neg (by tauto), if_neg (by tauto)]
  rfl

theorem try_keys_skip (C : CryptoBackend) (f tc : String) (si sg : List Nat) :
    ∀ (ks : List OI_DNSKEY_rec) (lg : List String),
    (∀ k, k ∈ ks → k.algorithm ∉ ([5, 7, 8, 10, 13, 14, 15, 16] : List Nat)) →
    try_keys consWarn C (Except.ok f) tc si sg lg ks =
      (lg ++ ks.map (fun k => skip_msg tc f k.algorithm), Except.ok false) := by
  intro ks
  induction ks with
  | nil => intro lg _; simp [try_keys]
  | cons k ks ih =>
    intro lg h
    rw [try_keys, attempt_key_unsupported C f tc si sg k (h k (List.mem_cons_self k ks))]
    simp only [Bool.false_eq_true, if_false]
    rw [ih (consWarn lg (skip_msg tc f k.algorithm)) (fun a ha => h a (List.mem_cons_of_mem k ha))]
    simp [consWarn]

/-! ### Permutation invariance of the signing input -/

theorem rdataLe_total (p q : List Nat × List Nat) : (rdataLe p q || rdataLe q p) = true :=
  bytesLe_total p.2 q.2

theorem rdataLe_trans (p q r : List Nat × List Nat) (h1 : rdataLe p q = true)
    (h2 : rdataLe q r = true) : rdataLe p r = true :=
  bytesLe_trans p.2 q.2 r.2 h1 h2

theorem rr_wire_pair_eq_of (rrsig : OI_RRSIG_rec) (ra rb : OI_rec_value)
    (howner : str_to_owner ra.fqdn = str_to_owner rb.fqdn)
    (htype : ra.rectype = rb.rectype) (hwire : ra.towire = rb.towire) :
    rr_wire_pair rrsig ra = rr_wire_pair rrsig rb := by
  rw [rr_wire_pair, rr_wire_pair, howner, htype, hwire]

theorem build_signing_input_perm (rrsig : OI_RRSIG_rec) (rrset₁ rrset₂ : List OI_rec_value)
    (hhom : rrset_homogeneous rrset₁) (hperm : List.Perm rrset₁ rrset₂) :
    build_signing_input rrsig rrset₁ = build_signing_input rrsig rrset₂ := by
  have hmap : List.Perm (rrset₁.map (rr_wire_pair rrsig)) (rrset₂.map (rr_wire_pair rrsig)) :=
    hperm.map _
  have hsort : stableSort rdataLe (rrset₁.map (rr_wire_pair rrsig)) =
      stableSort rdataLe (rrset₂.map (rr_wire_pair rrsig)) := by
    apply sorted_perm_eq rdataLe
    · exact ((stableSort_perm _ _).trans hmap).trans (stableSort_perm _ _).symm
    · exact stableSort_pairwise _ rdataLe_total rdataLe_trans _
    · exact stableSort_pairwise _ rdataLe_total rdataLe_trans _
    · intro a ha b hb hab hba
      have ha2 : a ∈ rrset₁.map (rr_wire_pair rrsig) := (stableSort_perm _ _).mem_iff.mp ha
      have hb2 : b ∈ rrset₁.map (rr_wire_pair rrsig) := (stableSort_perm _ _).mem_iff.mp hb
      obtain ⟨ra, hra, haeq⟩ := List.mem_map.mp ha2
      obtain ⟨rb, hrb, hbeq⟩ := List.mem_map.mp hb2
      have h2 : a.2 = b.2 := bytesLe_antisymm a.2 b.2 hab hba
      obtain ⟨howner, htype⟩ := hhom ra hra rb hrb
      have hwire : ra.towire = rb.towire := by
        have hra2 : (rr_wire_pair rrsig ra).2 = ra.towire := rfl
        have hrb2 : (rr_wire_pair rrsig rb).2 = rb.towire := rfl
        rw [← hra2, ← hrb2, haeq, hbeq]
        exact h2
      rw [← haeq, ← hbeq]
      exact rr_wire_pair_eq_of rrsig ra rb howner htype hwire
  rw [build_signing_input, build_signing_input, hsort]

/-- Either both RRsets are empty, or both have a head record. -/
theorem head_fqdn_cases (rrset₁ rrset₂ : List OI_rec_value) (hperm : List.Perm rrset₁ rrset₂) :
    (rrset₁ = [] ∧ rrset₂ = []) ∨
      (∃ f₁ f₂, head_fqdn rrset₁ = Except.ok f₁ ∧ head_fqdn rrset₂ = Except.ok f₂) := by
  match rrset₁, rrset₂ with
  | [], l₂ =>
    left
    exact ⟨rfl, hperm.nil_eq.symm⟩
  | r :: rs, [] => exact absurd hperm.symm.nil_eq (by simp)
  | r :: rs, r2 :: rs2 => exact Or.inr ⟨r.fqdn, r2.fqdn, rfl, rfl⟩

/-! ### Claim C9: the logger never influences the result -/

/-- C9: for every rrset, dnskeyset and rrsig argument, and any two logging
collaborators (any state types, update functions and initial states,
including one that discards all messages), the `(bool, reason)` outcome
of `verify_sig` (or the escaping exception) is identical: the logger is
written to but never read. -/
theorem claim_C9_logger_no_effect (L₁ L₂ : Type) (warn₁ : L₁ → String → L₁)
    (warn₂ : L₂ → String → L₂) (lg₁ : L₁) (lg₂ : L₂) (C : CryptoBackend)
    (rrset dnskeyset : List OI_rec_value) (rrsig_arg : OI_rec_value) :
    (verify_sig warn₁ lg₁ C rrset dnskeyset rrsig_arg).2 =
    (verify_sig warn₂ lg₂ C rrset dnskeyset rrsig_arg).2 := by
  match rrsig_arg with
  | OI_rec_value.dnskey k => rfl
  | OI_rec_value.other r => rfl
  | OI_rec_value.rrsig rrsig =>
    simp only [verify_sig]
    by_cases h1 : rrsig.timestamp < rrsig.inception - signature_grace_time
    · rw [if_pos h1, if_pos h1]
      match head_fqdn rrset with
      | Except.error e => rfl
      | Except.ok f => rfl
    · rw [if_neg h1, if_neg h1]
      by_cases h2 : rrsig.timestamp > rrsig.expiration + signature_grace_time
      · rw [if_pos h2, if_pos h2]
        match head_fqdn rrset with
        | Except.error e => rfl
        | Except.ok f => rfl
      · rw [if_neg h2, if_neg h2]
        match hmk : matching_keys_of dnskeyset rrsig.keytag with
        | [] =>
          match head_fqdn rrset with
          | Except.error e => rfl
          | Except.ok f =>
            match keytags_of dnskeyset with
            | Except.error e => rfl
            | Except.ok tags => rfl
        | k0 :: krest =>
          dsimp only
          have hsnd := try_keys_snd warn₁ warn₂ C (head_fqdn rrset) rrsig.type_covered
            (build_signing_input rrsig rrset) rrsig.signature (k0 :: krest) lg₁ lg₂
          rcases h₁ : try_keys warn₁ C (head_fqdn rrset) rrsig.type_covered
            (build_signing_input rrsig rrset) rrsig.signature lg₁ (k0 :: krest) with ⟨a₁, r₁⟩
          rcases h₂ : try_keys warn₂ C (head_fqdn rrset) rrsig.type_covered
            (build_signing_input rrsig rrset) rrsig.signature lg₂ (k0 :: krest) with ⟨a₂, r₂⟩
          rw [h₁, h₂] at hsnd
          simp only at hsnd
          rw [hsnd]
          rcases r₂ with e | pass
          · rfl
          · rfl

/-! ### Claim C4: re-ordering the RRset never changes the result -/

/-- C4: for every homogeneous rrset, every permutation of its records,
every dnskeyset and every RRSIG-typed rrsig, `verify_sig` returns the
same `(bool, reason)` outcome on the permuted rrset as on the original
(the canonical sort by RDATA is applied internally). -/
theorem claim_C4_order_invariance {L : Type} (warn : L → String → L) (logger : L)
    (C : CryptoBackend) (rrset₁ rrset₂ dnskeyset : List OI_rec_value) (rrsig : OI_RRSIG_rec)
    (hhom : rrset_homogeneous rrset₁) (hperm : List.Perm rrset₁ rrset₂) :
    (verify_sig warn logger C rrset₁ dnskeyset (OI_rec_value.rrsig rrsig)).2 =
    (verify_sig warn logger C rrset₂ dnskeyset (OI_rec_value.rrsig rrsig)).2 := by
  have hbuild := build_signing_input_perm rrsig rrset₁ rrset₂ hhom hperm
  rcases head_fqdn_cases rrset₁ rrset₂ hperm with ⟨he₁, he₂⟩ | ⟨f₁, f₂, hf₁, hf₂⟩
  · rw [he₁, he₂]
  · simp only [verify_sig]
    by_cases h1 : rrsig.timestamp < rrsig.inception - signature_grace_time
    · rw [if_pos h1, if_pos h1, hf₁, hf₂]
    · rw [if_neg h1, if_neg h1]
      by_cases h2 : rrsig.timestamp > rrsig.expiration + signature_grace_time
      · rw [if_pos h2, if_pos h2, hf₁, hf₂]
      · rw [if_neg h2, if_neg h2]
        match hmk : matching_keys_of dnskeyset rrsig.keytag with
        | [] =>
          dsimp only
          rw [hf₁, hf₂]
          match keytags_of dnskeyset with
          | Except.error e => rfl
          | Except.ok tags => rfl
        | k0 :: krest =>
          dsimp only
          rw [hf₁, hf₂, hbuild]
          obtain ⟨lgA, hA⟩ := try_keys_ok warn C f₁ rrsig.type_covered
            (build_signing_input rrsig rrset₂) rrsig.signature (k0 :: krest) logger
          obtain ⟨lgB, hB⟩ := try_keys_ok warn C f₂ rrsig.type_covered
            (build_signing_input rrsig rrset₂) rrsig.signature (k0 :: krest) logger
          rw [hA, hB]

/-! ### Claim C2: the time-window check -/

theorem failed_ne_notyet (r : OI_RRSIG_rec) :
    ("Failed to find a matching DNSKEY" : String) ≠ reason_notyet r :=
  string_ne_of_head _ _ 'F' 'R' rfl (reason_notyet_head r) (by decide)

theorem failed_ne_expired (r : OI_RRSIG_rec) :
    ("Failed to find a matching DNSKEY" : String) ≠ reason_expired r :=
  string_ne_of_head _ _ 'F' 'R' rfl (reason_expired_head r) (by decide)

theorem ok_ne_notyet (r : OI_RRSIG_rec) :
    ("Signature validated OK" : String) ≠ reason_notyet r :=
  string_ne_of_head _ _ 'S' 'R' rfl (reason_notyet_head r) (by decide)

theorem ok_ne_expired (r : OI_RRSIG_rec) :
    ("Signature validated OK" : String) ≠ reason_expired r :=
  string_ne_of_head _ _ 'S' 'R' rfl (reason_expired_head r) (by decide)

theorem couldnot_ne_notyet (ks : List OI_DNSKEY_rec) (r : OI_RRSIG_rec) :
    reason_could_not ks ≠ reason_notyet r :=
  string_ne_of_head _ _ 'C' 'R' (reason_could_not_head ks) (reason_notyet_head r) (by decide)

theorem couldnot_ne_expired (ks : List OI_DNSKEY_rec) (r : OI_RRSIG_rec) :
    reason_could_not ks ≠ reason_expired r :=
  string_ne_of_head _ _ 'C' 'R' (reason_could_not_head ks) (reason_expired_head r) (by decide)

theorem mentions_reason_notyet_ts (r : OI_RRSIG_rec) :
    mentions (reason_notyet r) (toString r.timestamp) := by
  rw [mentions, reason_notyet]
  simp only [String.data_append]
  exact occursIn_append_right _ _ _ (occursIn_append_right _ _ _ (occursIn_append_right _ _ _
    (occursIn_append_of _ _ _ (occursIn_self _))))

theorem mentions_reason_notyet_inc (r : OI_RRSIG_rec) :
    mentions (reason_notyet r) (toString r.inception) := by
  rw [mentions, reason_notyet]
  simp only [String.data_append]
  exact occursIn_append_right _ _ _ (occursIn_append_of _ _ _ (occursIn_self _))

theorem mentions_reason_expired_ts (r : OI_RRSIG_rec) :
    mentions (reason_expired r) (toString r.timestamp) := by
  rw [mentions, reason_expired]
  simp only [String.data_append]
  exact occursIn_append_right _ _ _ (occursIn_append_right _ _ _ (occursIn_append_right _ _ _
    (occursIn_append_of _ _ _ (occursIn_self _))))

theorem mentions_reason_expired_exp (r : OI_RRSIG_rec) :
    mentions (reason_expired r) (toString r.expiration) := by
  rw [mentions, reason_expired]
  simp only [String.data_append]
  exact occursIn_append_right _ _ _ (occursIn_append_of _ _ _ (occursIn_self _))

/-- C2: for a (necessarily non-empty) rrset, any dnskeyset and any
RRSIG-typed rrsig validated at time `rrsig.timestamp`, `verify_sig`
returns `(false, reason)` with one of the two time-window reasons — each
of which quotes the offending timestamps — if and only if
`now < inception - 7200` or `now > expiration + 7200`.  The dnskeyset
and the cryptographic oracle are arbitrary: the check precedes key
matching and cryptography.  In particular `now = expiration + 7200`
passes the window check and `now = expiration + 7201` fails it, and
symmetrically at the inception edge. -/
theorem claim_C2_time_window {L : Type} (warn : L → String → L) (logger : L)
    (C : CryptoBackend) (r0 : OI_rec_value) (rest dnskeyset : List OI_rec_value)
    (rrsig : OI_RRSIG_rec) :
    ((rrsig.timestamp < rrsig.inception - signature_grace_time ∨
        rrsig.timestamp > rrsig.expiration + signature_grace_time) ↔
      ((verify_sig warn logger C (r0 :: rest) dnskeyset (OI_rec_value.rrsig rrsig)).2 =
          Except.ok (false, reason_notyet rrsig) ∨
        (verify_sig warn logger C (r0 :: rest) dnskeyset (OI_rec_value.rrsig rrsig)).2 =
          Except.ok (false, reason_expired rrsig)))
    ∧ mentions (reason_notyet rrsig) (toString rrsig.timestamp)
    ∧ mentions (reason_notyet rrsig) (toString rrsig.inception)
    ∧ mentions (reason_expired rrsig) (toString rrsig.timestamp)
    ∧ mentions (reason_expired rrsig) (toString rrsig.expiration) := by
  refine ⟨⟨?_, ?_⟩, mentions_reason_notyet_ts rrsig, mentions_reason_notyet_inc rrsig,
    mentions_reason_expired_ts rrsig, mentions_reason_expired_exp rrsig⟩
  · intro h
    by_cases h1 : rrsig.timestamp < rrsig.inception - signature_grace_time
    · left
      simp only [verify_sig]
      rw [if_pos h1]
      rfl
    · right
      have h2 : rrsig.timestamp > rrsig.expiration + signature_grace_time := h.resolve_left h1
      simp only [verify_sig]
      rw [if_neg h1, if_pos h2]
      rfl
  · intro h
    by_contra hw
    rw [not_or] at hw
    obtain ⟨h1, h2⟩ := hw
    rw [verify_sig] at h
    rw [if_neg h1, if_neg h2] at h
    revert h
    match hmk : matching_keys_of dnskeyset rrsig.keytag with
    | [] =>
      dsimp only [head_fqdn]
      match keytags_of dnskeyset with
      | Except.error e =>
        intro h
        rcases h with h | h
        · exact Except.noConfusion h
        · exact Except.noConfusion h
      | Except.ok tags =>
        intro h
        rcases h with h | h
        · exact failed_ne_notyet rrsig (congrArg Prod.snd (Except.ok.inj h))
        · exact failed_ne_expired rrsig (congrArg Prod.snd (Except.ok.inj h))
    | k0 :: krest =>
      dsimp only
      obtain ⟨lg2, hA⟩ := try_keys_ok warn C (OI_rec_value.fqdn r0) rrsig.type_covered
        (build_signing_input rrsig (r0 :: rest)) rrsig.signature (k0 :: krest) logger
      rw [show head_fqdn (r0 :: rest) = Except.ok (OI_rec_value.fqdn r0) from rfl, hA]
      cases hd : loop_dec C (build_signing_input rrsig (r0 :: rest)) rrsig.signature
          (k0 :: krest)
      · intro h
        rcases h with h | h
        · exact couldnot_ne_notyet (k0 :: krest) rrsig (congrArg Prod.snd (Except.ok.inj h))
        · exact couldnot_ne_expired (k0 :: krest) rrsig (congrArg Prod.snd (Except.ok.inj h))
      · intro h
        rcases h with h | h
        · simp at h
        · simp at h

/-! ### Claim C3: structure of the signing input -/

/-- C3: for every rrset (homogeneous or not) and RRSIG-typed rrsig, the
signing input built by `verify_sig` (lines 93-116) is the RRSIG's
verification-data prefix followed, for each record taken in
byte-lexicographic order of its wire RDATA, by the concatenation of
(canonical owner name ++ 2-byte record type ++ 2-byte class 0x0001 ++
4-byte original TTL taken from the RRSIG ++ 2-byte RDATA length) and the
RDATA bytes. -/
theorem claim_C3_signing_input (rrsig : OI_RRSIG_rec) (rrset : List OI_rec_value) :
    ∃ sorted_pairs : List (List Nat × List Nat),
      List.Perm (rrset.map (fun rec =>
          (str_to_owner rec.fqdn ++ be16 rec.rectype ++ [0, 1] ++
             be32 rrsig.original_ttl ++ be16 rec.towire.length, rec.towire))) sorted_pairs
      ∧ List.Pairwise (fun p q => bytesLe p.2 q.2 = true) sorted_pairs
      ∧ build_signing_input rrsig rrset =
          rrsig.verification_data ++ (sorted_pairs.map (fun p => p.1 ++ p.2)).flatten := by
  refine ⟨stableSort rdataLe (rrset.map (rr_wire_pair rrsig)), ?_, ?_, ?_⟩
  · exact (stableSort_perm _ _).symm
  · exact stableSort_pairwise _ rdataLe_total rdataLe_trans _
  · rw [build_signing_input, foldl_concat_pairs, List.nil_append]

/-! ### Claim C8: compute_ds feeds owner then RDATA -/

/-- C8: for every digest function and every DNSKEY-typed record,
`compute_ds` (supplied with a fresh hash object) returns exactly the
digest of the canonical owner name of the DNSKEY followed by its wire
RDATA, the two parts fed to the hash in that order; and on a fixed
concrete DNSKEY with the identity digest it reproduces the expected byte
string exactly. -/
theorem claim_C8_compute_ds :
    (∀ (d : List Nat → List Nat) (k : OI_DNSKEY_rec),
      compute_ds (HashObj.mk d []) (OI_rec_value.dnskey k) =
        Except.ok (d (str_to_owner k.fqdn ++ k.towire)))
    ∧ compute_ds (HashObj.mk (fun l => l) []) (OI_rec_value.dnskey (demo_key 8 4242 77)) =
        Except.ok ([7, 101, 120, 97, 109, 112, 108, 101, 0, 5, 6]) := by
  constructor
  · intro d k
    rw [compute_ds]
    simp [HashObj.update, HashObj.digest]
  · decide

/-! ### Claim C10: non-DNSKEY entries in the key set are skipped -/

theorem matching_keys_of_cons_dnskey (k : OI_DNSKEY_rec) (rs : List OI_rec_value) (tag : Nat) :
    matching_keys_of (OI_rec_value.dnskey k :: rs) tag =
      if k.keytag = tag then k :: matching_keys_of rs tag else matching_keys_of rs tag := by
  simp only [matching_keys_of, List.filterMap_cons]
  rcases Decidable.em (k.keytag = tag) with h | h
  · rw [if_pos h, if_pos h]
  · rw [if_neg h, if_neg h]

theorem matching_keys_of_cons_rrsig (s : OI_RRSIG_rec) (rs : List OI_rec_value) (tag : Nat) :
    matching_keys_of (OI_rec_value.rrsig s :: rs) tag = matching_keys_of rs tag := by
  simp only [matching_keys_of, List.filterMap_cons]

theorem matching_keys_of_cons_other (g : OI_rec) (rs : List OI_rec_value) (tag : Nat) :
    matching_keys_of (OI_rec_value.other g :: rs) tag = matching_keys_of rs tag := by
  simp only [matching_keys_of, List.filterMap_cons]

theorem matching_keys_filter (tag : Nat) : ∀ (ds : List OI_rec_value),
    matching_keys_of (ds.filter is_dnskey_rec) tag = matching_keys_of ds tag := by
  intro ds
  induction ds with
  | nil => rfl
  | cons r rs ih =>
    rcases r with k | s | g
    · rw [List.filter_cons]
      simp only [is_dnskey_rec, if_true]
      rw [matching_keys_of_cons_dnskey, matching_keys_of_cons_dnskey, ih]
    · rw [List.filter_cons]
      simp only [is_dnskey_rec, Bool.false_eq_true, if_false]
      rw [matching_keys_of_cons_rrsig, ih]
    · rw [List.filter_cons]
      simp only [is_dnskey_rec, Bool.false_eq_true, if_false]
      rw [matching_keys_of_cons_other, ih]

theorem mem_matching_keys (ds : List OI_rec_value) (k : OI_DNSKEY_rec) (tag : Nat)
    (hk : OI_rec_value.dnskey k ∈ ds) (ht : k.keytag = tag) :
    k ∈ matching_keys_of ds tag := by
  rw [matching_keys_of]
  apply List.mem_filterMap.mpr
  refine ⟨OI_rec_value.dnskey k, hk, ?_⟩
  simp [ht]

/-- C10: when the dnskeyset contains entries that are not DNSKEY records,
key matching silently skips them (the matching-key list is the same as
for the filtered key set), and as soon as at least one genuine DNSKEY
matches the RRSIG's key tag the whole call — logger state included — is
the same as if the non-DNSKEY entries were absent. -/
theorem claim_C10_non_dnskey_skipped {L : Type} (warn : L → String → L) (logger : L)
    (C : CryptoBackend) (rrset dnskeyset : List OI_rec_value) (rrsig : OI_RRSIG_rec)
    (k : OI_DNSKEY_rec) (hk : OI_rec_value.dnskey k ∈ dnskeyset)
    (htag : k.keytag = rrsig.keytag) :
    (∀ tag, matching_keys_of (dnskeyset.filter is_dnskey_rec) tag =
      matching_keys_of dnskeyset tag)
    ∧ verify_sig warn logger C rrset dnskeyset (OI_rec_value.rrsig rrsig) =
      verify_sig warn logger C rrset (dnskeyset.filter is_dnskey_rec)
        (OI_rec_value.rrsig rrsig) := by
  refine ⟨fun tag => matching_keys_filter tag dnskeyset, ?_⟩
  simp only [verify_sig]
  by_cases h1 : rrsig.timestamp < rrsig.inception - signature_grace_time
  · rw [if_pos h1, if_pos h1]
  · rw [if_neg h1, if_neg h1]
    by_cases h2 : rrsig.timestamp > rrsig.expiration + signature_grace_time
    · rw [if_pos h2, if_pos h2]
    · rw [if_neg h2, if_neg h2, matching_keys_filter]
      have hne : matching_keys_of dnskeyset rrsig.keytag ≠ [] :=
        List.ne_nil_of_mem (mem_matching_keys dnskeyset k rrsig.keytag hk htag)
      obtain ⟨m0, mrest, hm⟩ := List.exists_cons_of_ne_nil hne
      rw [hm]

/-! ### Claim C5: every matching key is tried, failures do not short-circuit -/

/-- C5: with a valid time window and a non-empty rrset, if the matching
keys decompose as `pre ++ k0 :: post` where every attempt on a key of
`pre` fails — whether as a clean verification failure or as a caught
cryptographic exception, both of which `attempt_dec = false` covers —
and the attempt on `k0` succeeds, then `verify_sig` returns
`(true, "Signature validated OK")`: earlier failing keys never stop
evaluation of the remaining candidates, and no per-key exception escapes
the call. -/
theorem claim_C5_all_keys_tried {L : Type} (warn : L → String → L) (logger : L)
    (C : CryptoBackend) (r0 : OI_rec_value) (rest dnskeyset : List OI_rec_value)
    (rrsig : OI_RRSIG_rec) (pre post : List OI_DNSKEY_rec) (k0 : OI_DNSKEY_rec)
    (h1 : ¬ rrsig.timestamp < rrsig.inception - signature_grace_time)
    (h2 : ¬ rrsig.timestamp > rrsig.expiration + signature_grace_time)
    (hkeys : matching_keys_of dnskeyset rrsig.keytag = pre ++ k0 :: post)
    (hpre : ∀ k, k ∈ pre →
      attempt_dec C (build_signing_input rrsig (r0 :: rest)) rrsig.signature k = false)
    (hk0 : attempt_dec C (build_signing_input rrsig (r0 :: rest)) rrsig.signature k0 = true) :
    (verify_sig warn logger C (r0 :: rest) dnskeyset (OI_rec_value.rrsig rrsig)).2 =
      Except.ok (true, ("Signature validated OK")) := by
  simp only [verify_sig]
  rw [if_neg h1, if_neg h2]
  have hne : matching_keys_of dnskeyset rrsig.keytag ≠ [] := by
    rw [hkeys]
    cases pre <;> simp
  obtain ⟨m0, mrest, hm⟩ := List.exists_cons_of_ne_nil hne
  rw [hm]
  dsimp only
  obtain ⟨lg2, hA⟩ := try_keys_ok warn C (OI_rec_value.fqdn r0) rrsig.type_covered
    (build_signing_input rrsig (r0 :: rest)) rrsig.signature (m0 :: mrest) logger
  rw [show head_fqdn (r0 :: rest) = Except.ok (OI_rec_value.fqdn r0) from rfl, hA]
  have hloop : loop_dec C (build_signing_input rrsig (r0 :: rest)) rrsig.signature
      (m0 :: mrest) = true := by
    rw [← hm, hkeys, loop_dec_append C _ _ pre _ hpre, loop_dec, hk0]
    rfl
  rw [hloop]
  rfl

/-! ### Claim C6: dispatch of the RSA family -/

/-- C6 (amended): with a valid time window, a non-empty rrset and a single
matching key whose algorithm id is 5 or 7 (RSA/SHA-1), 8 (RSA/SHA-256) or
10 (RSA/SHA-512), `verify_sig` attempts RSA verification: its outcome is
exactly the verdict of the RSA-PKCS#1-v1.5 oracle applied to the DNSKEY's
modulus and exponent, the digest selected by the algorithm id, the
signing input and the signature.  The digest mapping is 5,7 ↦ SHA-1,
8 ↦ SHA-256, 10 ↦ SHA-512; RSA/MD5 (algorithm 1) is not in the dispatch
list and is skipped as unsupported. -/
theorem claim_C6_rsa_dispatch {L : Type} (warn : L → String → L) (logger : L)
    (C : CryptoBackend) (r0 : OI_rec_value) (rest dnskeyset : List OI_rec_value)
    (rrsig : OI_RRSIG_rec) (k : OI_DNSKEY_rec)
    (h1 : ¬ rrsig.timestamp < rrsig.inception - signature_grace_time)
    (h2 : ¬ rrsig.timestamp > rrsig.expiration + signature_grace_time)
    (hmatch : matching_keys_of dnskeyset rrsig.keytag = [k])
    (halg : k.algorithm = 5 ∨ k.algorithm = 7 ∨ k.algorithm = 8 ∨ k.algorithm = 10) :
    ((verify_sig warn logger C (r0 :: rest) dnskeyset (OI_rec_value.rrsig rrsig)).2 =
      Except.ok (match C.rsa_pkcs1v15 k.rsa_n_int k.rsa_e_int (rsa_hash_of k.algorithm)
          (build_signing_input rrsig (r0 :: rest)) rrsig.signature with
        | Except.ok true => (true, ("Signature validated OK"))
        | _ => (false, reason_could_not [k])))
    ∧ rsa_hash_of 5 = RsaHash.sha ∧ rsa_hash_of 7 = RsaHash.sha
    ∧ rsa_hash_of 8 = RsaHash.sha256 ∧ rsa_hash_of 10 = RsaHash.sha512 := by
  refine ⟨?_, rfl, rfl, rfl, rfl⟩
  simp only [verify_sig]
  rw [if_neg h1, if_neg h2, hmatch]
  dsimp only
  obtain ⟨lg2, hA⟩ := try_keys_ok warn C (OI_rec_value.fqdn r0) rrsig.type_covered
    (build_signing_input rrsig (r0 :: rest)) rrsig.signature [k] logger
  rw [show head_fqdn (r0 :: rest) = Except.ok (OI_rec_value.fqdn r0) from rfl, hA]
  dsimp only
  rw [loop_dec, attempt_dec, if_pos halg]
  rcases hr : C.rsa_pkcs1v15 k.rsa_n_int k.rsa_e_int (rsa_hash_of k.algorithm)
      (build_signing_input rrsig (r0 :: rest)) rrsig.signature with e | b
  · rfl
  · cases b
    · rfl
    · rfl

/-- C6, counterexample to the claim as stated: against an oracle whose
RSA verifier accepts everything, a matching key whose algorithm id
denotes RSA/MD5 (IANA id 1) is skipped as unsupported — verification
fails with the generic reason — while the same call with id 8
(RSA/SHA-256) is attempted and succeeds.  So RSA/MD5 keys do not get RSA
verification attempted. -/
theorem claim_C6_counterexample :
    (verify_sig consWarn [] crypto_true [demo_rr]
        [OI_rec_value.dnskey (demo_key 1 4242 77)]
        (OI_rec_value.rrsig (demo_rrsig 1 1000))).2 =
      Except.ok (false,
        ("Could not verify signature with any of the provided DNSKEYs [4242]"))
    ∧ (verify_sig consWarn [] crypto_true [demo_rr]
        [OI_rec_value.dnskey (demo_key 8 4242 77)]
        (OI_rec_value.rrsig (demo_rrsig 8 1000))).2 =
      Except.ok (true, ("Signature validated OK")) := by
  exact ⟨by decide, by decide⟩

/-! ### Claim C1: unrecognized algorithms -/

theorem mentions_skip (tc f : String) (alg : Nat) :
    mentions (skip_msg tc f alg) ("not supported") := by
  rw [mentions, skip_msg]
  simp only [String.data_append]
  exact occursIn_append_of _ _ _ (by decide)

/-- C1 (amended): with a valid time window, a non-empty rrset and at least
one key matching the RRSIG's key tag, if every matching key's algorithm
id lies outside the recognized set {5,7,8,10,13,14,15,16}, then
`verify_sig` returns `(false, reason)` where `reason` is the generic
could-not-verify message listing the matching key tags, a diagnostic
mentioning "not supported" is logged for each such key, and no exception
or fault escapes the call: unknown algorithm ids are treated as
unsupported, never as an error that aborts the whole verification.  (The
"not supported" text appears in the logged diagnostics, not in the
returned reason.) -/
theorem claim_C1_unsupported_algorithms (C : CryptoBackend) (lg0 : List String)
    (r0 : OI_rec_value) (rest dnskeyset : List OI_rec_value) (rrsig : OI_RRSIG_rec)
    (h1 : ¬ rrsig.timestamp < rrsig.inception - signature_grace_time)
    (h2 : ¬ rrsig.timestamp > rrsig.expiration + signature_grace_time)
    (hne : matching_keys_of dnskeyset rrsig.keytag ≠ [])
    (halg : ∀ k, k ∈ matching_keys_of dnskeyset rrsig.keytag →
      k.algorithm ∉ ([5, 7, 8, 10, 13, 14, 15, 16] : List Nat)) :
    (verify_sig consWarn lg0 C (r0 :: rest) dnskeyset (OI_rec_value.rrsig rrsig)).2 =
      Except.ok (false, reason_could_not (matching_keys_of dnskeyset rrsig.keytag))
    ∧ ∀ k, k ∈ matching_keys_of dnskeyset rrsig.keytag →
      ∃ m, m ∈ (verify_sig consWarn lg0 C (r0 :: rest) dnskeyset
          (OI_rec_value.rrsig rrsig)).1 ∧ mentions m ("not supported") := by
  obtain ⟨m0, mrest, hm⟩ := List.exists_cons_of_ne_nil hne
  have hskip := try_keys_skip C (OI_rec_value.fqdn r0) rrsig.type_covered
    (build_signing_input rrsig (r0 :: rest)) rrsig.signature (m0 :: mrest) lg0
    (by rw [← hm]; exact halg)
  have hverify : verify_sig consWarn lg0 C (r0 :: rest) dnskeyset
      (OI_rec_value.rrsig rrsig) =
      (lg0 ++ (m0 :: mrest).map (fun k => skip_msg rrsig.type_covered
        (OI_rec_value.fqdn r0) k.algorithm),
       Except.ok (false, reason_could_not (m0 :: mrest))) := by
    simp only [verify_sig]
    rw [if_neg h1, if_neg h2, hm]
    dsimp only
    rw [show head_fqdn (r0 :: rest) = Except.ok (OI_rec_value.fqdn r0) from rfl, hskip]
    rfl
  rw [hverify, hm]
  refine ⟨rfl, ?_⟩
  intro k hkmem
  refine ⟨skip_msg rrsig.type_covered (OI_rec_value.fqdn r0) k.algorithm, ?_, ?_⟩
  · apply List.mem_append_right
    exact List.mem_map.mpr ⟨k, hkmem, rfl⟩
  · exact mentions_skip _ _ _

/-- C1, counterexample to the claim as stated: a call in which the only
matching key has the unrecognized algorithm id 200 returns `(false, r)`
where `r` is the generic could-not-verify reason; `r` does not mention
"not supported" (that text only reaches the log). -/
theorem claim_C1_counterexample :
    (verify_sig consWarn [] crypto_false [demo_rr]
        [OI_rec_value.dnskey (demo_key 200 4242 77)]
        (OI_rec_value.rrsig (demo_rrsig 8 1000))).2 =
      Except.ok (false,
        ("Could not verify signature with any of the provided DNSKEYs [4242]"))
    ∧ ¬ mentions ("Could not verify signature with any of the provided DNSKEYs [4242]")
        ("not supported") := by
  refine ⟨by decide, ?_⟩
  intro h
  rw [mentions] at h
  exact absurd h (by decide)

/-! ### Witnesses -/

/-- C1, witness: concrete instantiation of
`claim_C1_unsupported_algorithms` at a key with algorithm id 200. -/
theorem claim_C1_witness :
    (verify_sig consWarn [] crypto_false [demo_rr]
        [OI_rec_value.dnskey (demo_key 200 4242 77)]
        (OI_rec_value.rrsig (demo_rrsig 8 1000))).2 =
      Except.ok (false, reason_could_not (matching_keys_of
        [OI_rec_value.dnskey (demo_key 200 4242 77)] (demo_rrsig 8 1000).keytag))
    ∧ ∃ m, m ∈ (verify_sig consWarn [] crypto_false [demo_rr]
        [OI_rec_value.dnskey (demo_key 200 4242 77)]
        (OI_rec_value.rrsig (demo_rrsig 8 1000))).1 ∧ mentions m ("not supported") := by
  have h := claim_C1_unsupported_algorithms crypto_false [] demo_rr []
    [OI_rec_value.dnskey (demo_key 200 4242 77)] (demo_rrsig 8 1000)
    (by decide) (by decide) (by decide) (by decide)
  exact ⟨h.1, h.2 (demo_key 200 4242 77) (by decide)⟩

/-- C2, witness: the boundary behaviour at the grace-time edges, from
`claim_C2_time_window`.  Validation at `expiration + 7200 = 8700` (and at
`inception - 7200 = -6700`) passes the window check; one second beyond
either edge fails it. -/
theorem claim_C2_witness :
    (¬ ((verify_sig consWarn [] crypto_false [demo_rr] []
          (OI_rec_value.rrsig (demo_rrsig 8 8700))).2 =
            Except.ok (false, reason_notyet (demo_rrsig 8 8700)) ∨
        (verify_sig consWarn [] crypto_false [demo_rr] []
          (OI_rec_value.rrsig (demo_rrsig 8 8700))).2 =
            Except.ok (false, reason_expired (demo_rrsig 8 8700))))
    ∧ ((verify_sig consWarn [] crypto_false [demo_rr] []
          (OI_rec_value.rrsig (demo_rrsig 8 8701))).2 =
            Except.ok (false, reason_notyet (demo_rrsig 8 8701)) ∨
       (verify_sig consWarn [] crypto_false [demo_rr] []
          (OI_rec_value.rrsig (demo_rrsig 8 8701))).2 =
            Except.ok (false, reason_expired (demo_rrsig 8 8701)))
    ∧ (¬ ((verify_sig consWarn [] crypto_false [demo_rr] []
          (OI_rec_value.rrsig (demo_rrsig 8 (-6700)))).2 =
            Except.ok (false, reason_notyet (demo_rrsig 8 (-6700))) ∨
        (verify_sig consWarn [] crypto_false [demo_rr] []
          (OI_rec_value.rrsig (demo_rrsig 8 (-6700)))).2 =
            Except.ok (false, reason_expired (demo_rrsig 8 (-6700)))))
    ∧ ((verify_sig consWarn [] crypto_false [demo_rr] []
          (OI_rec_value.rrsig (demo_rrsig 8 (-6701)))).2 =
            Except.ok (false, reason_notyet (demo_rrsig 8 (-6701))) ∨
       (verify_sig consWarn [] crypto_false [demo_rr] []
          (OI_rec_value.rrsig (demo_rrsig 8 (-6701)))).2 =
            Except.ok (false, reason_expired (demo_rrsig 8 (-6701)))) := by
  refine ⟨?_, ?_, ?_, ?_⟩
  · intro hr
    exact absurd ((claim_C2_time_window consWarn [] crypto_false demo_rr [] []
      (demo_rrsig 8 8700)).1.mpr hr) (by decide)
  · exact (claim_C2_time_window consWarn [] crypto_false demo_rr [] []
      (demo_rrsig 8 8701)).1.mp (by decide)
  · intro hr
    exact absurd ((claim_C2_time_window consWarn [] crypto_false demo_rr [] []
      (demo_rrsig 8 (-6700))).1.mpr hr) (by decide)
  · exact (claim_C2_time_window consWarn [] crypto_false demo_rr [] []
      (demo_rrsig 8 (-6701))).1.mp (by decide)

/-- C4, witness: concrete instantiation of `claim_C4_order_invariance` on
a two-record homogeneous RRset and its swap. -/
theorem claim_C4_witness :
    (verify_sig consWarn [] crypto_false [demo_rr, demo_rr2]
        [OI_rec_value.dnskey (demo_key 8 4242 77)]
        (OI_rec_value.rrsig (demo_rrsig 8 1000))).2 =
    (verify_sig consWarn [] crypto_false [demo_rr2, demo_rr]
        [OI_rec_value.dnskey (demo_key 8 4242 77)]
        (OI_rec_value.rrsig (demo_rrsig 8 1000))).2 :=
  claim_C4_order_invariance consWarn [] crypto_false [demo_rr, demo_rr2] [demo_rr2, demo_rr]
    [OI_rec_value.dnskey (demo_key 8 4242 77)] (demo_rrsig 8 1000) (by decide) (by decide)

/-- C5, witness: concrete instantiation of `claim_C5_all_keys_tried` with
two keys sharing tag 4242; the oracle raises on the first key (caught,
logged) and accepts the second, and `verify_sig` returns true. -/
theorem claim_C5_witness :
    (verify_sig consWarn [] crypto_sel [demo_rr]
        [OI_rec_value.dnskey (demo_key 5 4242 1), OI_rec_value.dnskey (demo_key 5 4242 2)]
        (OI_rec_value.rrsig (demo_rrsig 5 1000))).2 =
      Except.ok (true, ("Signature validated OK")) :=
  claim_C5_all_keys_tried consWarn [] crypto_sel demo_rr []
    [OI_rec_value.dnskey (demo_key 5 4242 1), OI_rec_value.dnskey (demo_key 5 4242 2)]
    (demo_rrsig 5 1000) [demo_key 5 4242 1] [] (demo_key 5 4242 2)
    (by decide) (by decide) (by decide) (by decide) (by decide)

/-- C6, witness: concrete instantiation of `claim_C6_rsa_dispatch` at an
RSA/SHA-256 key (algorithm 8). -/
theorem claim_C6_witness :
    ((verify_sig consWarn [] crypto_false [demo_rr]
        [OI_rec_value.dnskey (demo_key 8 4242 77)]
        (OI_rec_value.rrsig (demo_rrsig 8 1000))).2 =
      Except.ok (match crypto_false.rsa_pkcs1v15 (demo_key 8 4242 77).rsa_n_int
          (demo_key 8 4242 77).rsa_e_int (rsa_hash_of (demo_key 8 4242 77).algorithm)
          (build_signing_input (demo_rrsig 8 1000) [demo_rr])
          (demo_rrsig 8 1000).signature with
        | Except.ok true => (true, ("Signature validated OK"))
        | _ => (false, reason_could_not [demo_key 8 4242 77])))
    ∧ rsa_hash_of 5 = RsaHash.sha ∧ rsa_hash_of 7 = RsaHash.sha
    ∧ rsa_hash_of 8 = RsaHash.sha256 ∧ rsa_hash_of 10 = RsaHash.sha512 :=
  claim_C6_rsa_dispatch consWarn [] crypto_false demo_rr []
    [OI_rec_value.dnskey (demo_key 8 4242 77)] (demo_rrsig 8 1000) (demo_key 8 4242 77)
    (by decide) (by decide) (by decide) (by decide)

/-- C10, witness: concrete instantiation of
`claim_C10_non_dnskey_skipped` with a key set containing one generic
(non-DNSKEY) record next to a matching DNSKEY. -/
theorem claim_C10_witness :
    (∀ tag, matching_keys_of (([demo_rr,
        OI_rec_value.dnskey (demo_key 8 4242 77)] : List OI_rec_value).filter is_dnskey_rec)
        tag =
      matching_keys_of [demo_rr, OI_rec_value.dnskey (demo_key 8 4242 77)] tag)
    ∧ verify_sig consWarn [] crypto_false [demo_rr]
        [demo_rr, OI_rec_value.dnskey (demo_key 8 4242 77)]
        (OI_rec_value.rrsig (demo_rrsig 8 1000)) =
      verify_sig consWarn [] crypto_false [demo_rr]
        (([demo_rr, OI_rec_value.dnskey (demo_key 8 4242 77)] :
            List OI_rec_value).filter is_dnskey_rec)
        (OI_rec_value.rrsig (demo_rrsig 8 1000)) :=
  claim_C10_non_dnskey_skipped consWarn [] crypto_false [demo_rr]
    [demo_rr, OI_rec_value.dnskey (demo_key 8 4242 77)] (demo_rrsig 8 1000)
    (demo_key 8 4242 77) (by decide) (by decide)

/-! ### Claim C7: canonical owner names -/

theorem char_toNat_ofNat (n : Nat) (h : n.isValidChar) : (Char.ofNat n).toNat = n := by
  simp [Char.ofNat, h, Char.ofNatAux, Char.toNat, UInt32.toNat, BitVec.toNat_ofNatLt]

theorem toLower_idem (c : Char) : Char.toLower (Char.toLower c) = Char.toLower c := by
  simp only [Char.toLower]
  split
  · next hh =>
    rw [if_neg]
    rw [char_toNat_ofNat _ (Or.inl (by omega))]
    omega
  · rfl

theorem toLower_ascii (c : Char) (h : c.toNat < 128) : (Char.toLower c).toNat < 128 := by
  simp only [Char.toLower]
  split
  · next hh =>
    rw [char_toNat_ofNat _ (Or.inl (by omega))]
    omega
  · exact h

theorem toLower_fix_ne (c t : Char) (ht : ¬ (97 ≤ t.toNat ∧ t.toNat ≤ 122))
    (ht2 : ¬ (65 ≤ t.toNat ∧ t.toNat ≤ 90)) :
    Char.toLower c = t ↔ c = t := by
  constructor
  · intro h
    revert h
    simp only [Char.toLower]
    split
    · next hh =>
      intro h
      exfalso
      apply ht
      rw [← h, char_toNat_ofNat _ (Or.inl (by omega))]
      omega
    · exact fun h => h
  · intro h
    subst h
    simp only [Char.toLower]
    rw [if_neg]
    omega

theorem toLower_bs_iff (c : Char) : Char.toLower c = '\\' ↔ c = '\\' :=
  toLower_fix_ne c '\\' (by decide) (by decide)

theorem toLower_dot_iff (c : Char) : Char.toLower c = '.' ↔ c = '.' :=
  toLower_fix_ne c '.' (by decide) (by decide)

theorem splitDots_cons (c : Char) (r : List Char) :
    splitDots (c :: r) = if c = '.' then [] :: splitDots r else consHead c (splitDots r) := by
  rw [splitDots]
  rcases Decidable.em (c = '.') with h | h
  · rw [if_pos h, if_pos h]
  · rw [if_neg h, if_neg h]
    rcases hs : splitDots r with _ | ⟨l, ls⟩
    · rfl
    · rfl

theorem replBsBs_cons (c : Char) (l : List Char) (h : c ≠ '\\') :
    replBsBsWithDot (c :: l) = c :: replBsBsWithDot l := by
  match l with
  | [] => rfl
  | d :: r =>
    rw [replBsBsWithDot, if_neg]
    intro hh
    exact h hh.1

theorem replBsBs_bsbs (l : List Char) :
    replBsBsWithDot ('\\' :: '\\' :: l) = '.' :: replBsBsWithDot l := by
  rw [replBsBsWithDot, if_pos ⟨rfl, rfl⟩]

theorem replBsBs_pos_iff (l : List Char) :
    (0 < (replBsBsWithDot l).length) ↔ 0 < l.length := by
  match l with
  | [] => rfl
  | [c] => simp [replBsBsWithDot]
  | c :: d :: r =>
    rw [replBsBsWithDot]
    split
    · simp
    · simp

theorem map_repl_consHead (c : Char) (L : List (List Char)) (h : c ≠ '\\') :
    (consHead c L).map replBsBsWithDot = consHead c (L.map replBsBsWithDot) := by
  match L with
  | [] =>
    simp only [consHead, List.map_cons, List.map_nil]
    rw [replBsBs_cons c [] h]
    rfl
  | l :: ls =>
    simp only [consHead, List.map_cons]
    rw [replBsBs_cons c l h]

theorem map_repl_consHead_bsbs (L : List (List Char)) :
    (consHead '\\' (consHead '\\' L)).map replBsBsWithDot =
      consHead '.' (L.map replBsBsWithDot) := by
  match L with
  | [] =>
    simp only [consHead, List.map_cons, List.map_nil]
    rw [replBsBs_bsbs]
    rfl
  | l :: ls =>
    simp only [consHead, List.map_cons]
    rw [replBsBs_bsbs]

/-- The replace/split/replace pipeline of `str_to_owner` computes, label
by label, the specification-side parse, provided the only escapes in the
name are `\.`. -/
theorem pipeline_eq : ∀ (n : List Char), escapesOnlyDot n = true →
    (splitDots (replEscDot n)).map replBsBsWithDot = parseLabels n
  | [], _ => rfl
  | [c], _ => by
    rw [show replEscDot [c] = [c] from rfl, splitDots_cons]
    rcases Decidable.em (c = '.') with hd | hd
    · subst hd
      rw [if_pos rfl]
      rfl
    · rw [if_neg hd]
      rw [show splitDots [] = [[]] from rfl]
      rw [show consHead c [[]] = [[c]] from rfl]
      rw [show parseLabels [c] = if c = '.' then [[], []] else [[c]] from rfl, if_neg hd]
      rfl
  | c :: d :: r, h => by
    by_cases hc : c = '\\'
    · subst hc
      have hd : d = '.' := by
        by_contra hd
        rw [escapesOnlyDot, if_pos rfl, if_neg hd] at h
        exact Bool.noConfusion h
      subst hd
      have hr : escapesOnlyDot r = true := by
        rw [escapesOnlyDot, if_pos rfl, if_pos rfl] at h
        exact h
      rw [show replEscDot ('\\' :: '.' :: r) = '\\' :: '\\' :: replEscDot r from by
        rw [replEscDot, if_pos ⟨rfl, rfl⟩]]
      rw [splitDots_cons, if_neg (by decide), splitDots_cons, if_neg (by decide)]
      rw [map_repl_consHead_bsbs]
      rw [pipeline_eq r hr]
      rw [show parseLabels ('\\' :: '.' :: r) = consHead '.' (parseLabels r) from by
        rw [parseLabels, if_pos ⟨rfl, rfl⟩]]
    · by_cases hdot : c = '.'
      · subst hdot
        have hr : escapesOnlyDot (d :: r) = true := by
          rw [escapesOnlyDot, if_neg (by decide)] at h
          exact h
        rw [show replEscDot ('.' :: d :: r) = '.' :: replEscDot (d :: r) from by
          rw [replEscDot, if_neg (fun hh => absurd hh.1 (by decide))]]
        rw [splitDots_cons, if_pos rfl]
        simp only [List.map_cons]
        rw [pipeline_eq (d :: r) hr]
        rw [show parseLabels ('.' :: d :: r) = [] :: parseLabels (d :: r) from by
          rw [parseLabels, if_neg (fun hh => absurd hh.1 (by decide)), if_pos rfl]]
        rfl
      · have hr : escapesOnlyDot (d :: r) = true := by
          rw [escapesOnlyDot, if_neg hc] at h
          exact h
        rw [show replEscDot (c :: d :: r) = c :: replEscDot (d :: r) from by
          rw [replEscDot, if_neg (fun hh => hc hh.1)]]
        rw [splitDots_cons, if_neg hdot]
        rw [map_repl_consHead c _ hc]
        rw [pipeline_eq (d :: r) hr]
        rw [show parseLabels (c :: d :: r) = consHead c (parseLabels (d :: r)) from by
          rw [parseLabels, if_neg (fun hh => hc hh.1), if_neg hdot]]
termination_by n => n.length

theorem fold_repl (L : List (List Char)) : ∀ (a : List Nat),
    L.foldl (fun acc label =>
      if 0 < label.length then
        acc ++ lenOctet (replBsBsWithDot label).length ++ utf8Str (replBsBsWithDot label)
      else acc) a =
    (L.map replBsBsWithDot).foldl (fun acc l =>
      if 0 < l.length then acc ++ lenOctet l.length ++ utf8Str l else acc) a := by
  induction L with
  | nil => intro a; rfl
  | cons l ls ih =>
    intro a
    simp only [List.foldl_cons, List.map_cons]
    rcases Decidable.em (0 < l.length) with h | h
    · rw [if_pos h, if_pos ((replBsBs_pos_iff l).mpr h)]
      exact ih _
    · rw [if_neg h, if_neg (fun hh => h ((replBsBs_pos_iff l).mp hh))]
      exact ih _

theorem utf8Str_ascii (l : List Char) (h : ∀ c, c ∈ l → c.toNat < 128) :
    utf8Str l = l.map Char.toNat := by
  induction l with
  | nil => rfl
  | cons c cs ih =>
    rw [utf8Str, List.flatMap_cons]
    rw [utf8EncodeNat, if_pos (h c (List.mem_cons_self c cs))]
    rw [List.map_cons]
    rw [show List.flatMap cs (fun c => utf8EncodeNat c.toNat) = utf8Str cs from rfl]
    rw [ih (fun c hc => h c (List.mem_cons_of_mem _ hc))]
    rfl

theorem fold_plain_spec (L : List (List Char))
    (hascii : ∀ l, l ∈ L → ∀ c, c ∈ l → c.toNat < 128)
    (hlen : ∀ l, l ∈ L → l.length ≤ 255) : ∀ a,
    L.foldl (fun acc l =>
      if 0 < l.length then acc ++ lenOctet l.length ++ utf8Str l else acc) a =
    L.foldl (fun acc l =>
      if 0 < l.length then acc ++ (l.length :: l.map Char.toNat) else acc) a := by
  induction L with
  | nil => intro a; rfl
  | cons l ls ih =>
    intro a
    simp only [List.foldl_cons]
    have hb : (if 0 < l.length then a ++ lenOctet l.length ++ utf8Str l else a) =
        (if 0 < l.length then a ++ (l.length :: l.map Char.toNat) else a) := by
      rcases Decidable.em (0 < l.length) with h | h
      · rw [if_pos h, if_pos h]
        rw [lenOctet, Nat.mod_eq_of_lt (by
          have := hlen l (List.mem_cons_self l ls)
          omega)]
        rw [utf8Str_ascii l (hascii l (List.mem_cons_self l ls))]
        rw [List.append_assoc]
        rfl
      · rw [if_neg h, if_neg h]
    rw [hb]
    exact ih (fun l2 h2 => hascii l2 (List.mem_cons_of_mem _ h2))
      (fun l2 h2 => hlen l2 (List.mem_cons_of_mem _ h2)) _

theorem consHead_chars (P : Char → Prop) (c : Char) (L : List (List Char))
    (hL : ∀ l, l ∈ L → ∀ ch, ch ∈ l → P ch) (hc : P c) :
    ∀ l, l ∈ consHead c L → ∀ ch, ch ∈ l → P ch := by
  match L with
  | [] =>
    intro l hl ch hch
    simp only [consHead, List.mem_singleton] at hl
    subst hl
    rcases List.mem_singleton.mp hch with h
    rw [h]
    exact hc
  | l0 :: ls =>
    intro l hl ch hch
    simp only [consHead, List.mem_cons] at hl
    rcases hl with h | h
    · subst h
      rcases List.mem_cons.mp hch with h2 | h2
      · rw [h2]; exact hc
      · exact hL l0 (List.mem_cons_self _ _) ch h2
    · exact hL l (List.mem_cons_of_mem _ h) ch hch

theorem parseLabels_chars : ∀ (n : List Char), ∀ l, l ∈ parseLabels n → ∀ ch, ch ∈ l →
    ch ∈ n ∨ ch = '.'
  | [] => by
    intro l hl ch hch
    simp only [parseLabels, List.mem_singleton] at hl
    subst hl
    exact absurd hch (List.not_mem_nil ch)
  | [c] => by
    intro l hl ch hch
    rcases Decidable.em (c = '.') with h | h
    · rw [show parseLabels [c] = if c = '.' then [[], []] else [[c]] from rfl, if_pos h] at hl
      rcases List.mem_cons.mp hl with h2 | h2
      · subst h2; exact absurd hch (List.not_mem_nil ch)
      · rcases List.mem_singleton.mp h2 with h3
        subst h3
        exact absurd hch (List.not_mem_nil ch)
    · rw [show parseLabels [c] = if c = '.' then [[], []] else [[c]] from rfl, if_neg h] at hl
      rcases List.mem_singleton.mp hl with h2
      subst h2
      rcases List.mem_singleton.mp hch with h3
      subst h3
      exact Or.inl (List.mem_singleton.mpr rfl)
  | c :: d :: r => by
    intro l hl ch hch
    by_cases h1 : c = '\\' ∧ d = '.'
    · rw [parseLabels, if_pos h1] at hl
      refine consHead_chars (fun ch => ch ∈ c :: d :: r ∨ ch = '.') '.' (parseLabels r)
        ?_ (Or.inr rfl) l hl ch hch
      intro l2 hl2 ch2 hch2
      rcases parseLabels_chars r l2 hl2 ch2 hch2 with hh | hh
      · exact Or.inl (List.mem_cons_of_mem _ (List.mem_cons_of_mem _ hh))
      · exact Or.inr hh
    · by_cases h2 : c = '.'
      · rw [parseLabels, if_neg h1, if_pos h2] at hl
        rcases List.mem_cons.mp hl with h3 | h3
        · subst h3; exact absurd hch (List.not_mem_nil ch)
        · rcases parseLabels_chars (d :: r) l h3 ch hch with hh | hh
          · exact Or.inl (List.mem_cons_of_mem _ hh)
          · exact Or.inr hh
      · rw [parseLabels, if_neg h1, if_neg h2] at hl
        refine consHead_chars (fun ch => ch ∈ c :: d :: r ∨ ch = '.') c (parseLabels (d :: r))
          ?_ (Or.inl (List.mem_cons_self _ _)) l hl ch hch
        intro l2 hl2 ch2 hch2
        rcases parseLabels_chars (d :: r) l2 hl2 ch2 hch2 with hh | hh
        · exact Or.inl (List.mem_cons_of_mem _ hh)
        · exact Or.inr hh
termination_by n => n.length

theorem escapesOnlyDot_toLower : ∀ (n : List Char), escapesOnlyDot n = true →
    escapesOnlyDot (n.map Char.toLower) = true
  | [], _ => rfl
  | [c], h => by
    simp only [List.map_cons, List.map_nil]
    rw [escapesOnlyDot] at h ⊢
    rcases Decidable.em (c = '\\') with hb | hb
    · rw [if_pos hb] at h
      exact Bool.noConfusion h
    · rw [if_neg (fun hh => hb ((toLower_bs_iff c).mp hh))]
  | c :: d :: r, h => by
    simp only [List.map_cons]
    rw [escapesOnlyDot]
    by_cases hc : c = '\\'
    · subst hc
      rw [escapesOnlyDot, if_pos rfl] at h
      rcases Decidable.em (d = '.') with hd | hd
      · subst hd
        rw [if_pos rfl] at h
        rw [if_pos (by decide), if_pos (by decide)]
        exact escapesOnlyDot_toLower r h
      · rw [if_neg hd] at h
        exact Bool.noConfusion h
    · rw [escapesOnlyDot, if_neg hc] at h
      rw [if_neg (fun hh => hc ((toLower_bs_iff c).mp hh))]
      have h2 := escapesOnlyDot_toLower (d :: r) h
      simpa using h2
termination_by n => n.length

/-- C7 (amended): `str_to_owner` is lower-case normalizing on every name;
and on every ASCII presentation name whose only escape sequences are
`\.` (every backslash immediately followed by a dot) and whose resolved
labels fit a length octet, it emits, for each non-empty label of the
specification-side parse (splitting on unescaped dots, an escaped dot
being a literal character inside its label), a one-byte length prefix
followed by the label's bytes with the escaped dots resolved, terminated
by a single zero byte.  `canonical_owner("WWW.Example.com.")` equals
`canonical_owner("www.example.com.")`, and
`canonical_owner("a\.b.example.")` encodes exactly the two labels
`a.b` and `example`.  (Names using other escapes, e.g. `\\`, are
mangled — see the counterexample.) -/
theorem claim_C7_canonical_owner :
    (∀ name : String,
      str_to_owner (String.mk (name.data.map Char.toLower)) = str_to_owner name)
    ∧ (∀ name : String,
        escapesOnlyDot name.data = true →
        (∀ c, c ∈ name.data → c.toNat < 128) →
        (∀ l, l ∈ parseLabels (name.data.map Char.toLower) → l.length ≤ 255) →
        str_to_owner name =
          (parseLabels (name.data.map Char.toLower)).foldl
            (fun acc l => if 0 < l.length then acc ++ (l.length :: l.map Char.toNat) else acc)
            [] ++ [0])
    ∧ str_to_owner ("WWW.Example.com.") = str_to_owner ("www.example.com.")
    ∧ str_to_owner ("a\\.b.example.") =
        [3, 97, 46, 98, 7, 101, 120, 97, 109, 112, 108, 101, 0] := by
  refine ⟨?_, ?_, by decide, by decide⟩
  · intro name
    rw [str_to_owner, str_to_owner]
    rw [show (String.mk (name.data.map Char.toLower)).data = name.data.map Char.toLower
      from rfl]
    rw [List.map_map]
    rw [show Char.toLower ∘ Char.toLower = Char.toLower from funext toLower_idem]
  · intro name hesc hascii hlen
    have hA : ∀ l, l ∈ parseLabels (name.data.map Char.toLower) → ∀ c, c ∈ l →
        c.toNat < 128 := by
      intro l hl c hc
      rcases parseLabels_chars (name.data.map Char.toLower) l hl c hc with h | h
      · obtain ⟨c0, hc0, hceq⟩ := List.mem_map.mp h
        rw [← hceq]
        exact toLower_ascii c0 (hascii c0 hc0)
      · rw [h]
        decide
    rw [str_to_owner]
    rw [fold_repl]
    rw [pipeline_eq (name.data.map Char.toLower) (escapesOnlyDot_toLower name.data hesc)]
    rw [fold_plain_spec _ hA hlen]

/-- C7, counterexample to the claim as stated: the syntactically valid
presentation name `a\\b.example.` has first label `a\b` (an escaped
backslash followed by `b`), so "raw bytes with escape sequences
resolved" would be `[97, 92, 98]`; the code instead rewrites the two
backslashes to a literal dot and emits `[97, 46, 98]` ("a.b"),
colliding with the encoding of `a\.b.example.`. -/
theorem claim_C7_counterexample :
    str_to_owner ("a\\\\b.example.") =
      [3, 97, 46, 98, 7, 101, 120, 97, 109, 112, 108, 101, 0]
    ∧ [3, 97, 46, 98, 7, 101, 120, 97, 109, 112, 108, 101, 0] ≠
      ([3, 97, 92, 98, 7, 101, 120, 97, 109, 112, 108, 101, 0] : List Nat) := by
  exact ⟨by decide, by decide⟩

/-- C7, witness: concrete instantiation of `claim_C7_canonical_owner` on
the mixed-case escaped-dot name `a\.b.Example.`. -/
theorem claim_C7_witness :
    escapesOnlyDot ("a\\.b.Example.").data = true
    ∧ str_to_owner ("a\\.b.Example.") =
        (parseLabels (("a\\.b.Example.").data.map Char.toLower)).foldl
          (fun acc l => if 0 < l.length then acc ++ (l.length :: l.map Char.toNat) else acc)
          [] ++ [0] :=
  ⟨by decide, claim_C7_canonical_owner.2.1 ("a\\.b.Example.") (by decide) (by decide)
    (by decide)⟩
